import Mathlib

/-! # Snowflake identifier generator

A shallow embedding of the Go package `snowflake` (files `snowflake.go` and
`snowflake_id.go`) together with theorems about it.

Conventions of the embedding

* An `int64` is an `Int`; every operation of the source that can leave the
  64-bit range is wrapped explicitly with `wrap64` (two's complement).
* `x << k` on `int64` is `shl64 x k`; `|`, `&` and `^` are `Int.lor`, `Int.land`
  and `Int.xor`, which agree with the two's-complement operations.
* A `uint8` is a `Nat` reduced modulo `256` where the source adds two of them.
* The mutex of the generator is not modelled: `ID` is the body that runs under
  the lock, as a function of the state and of the clock.
* The clock is the list of the values that successive calls of
  `currentTimestamp` return.  A call that needs a reading when the list is
  empty has not returned (`none`): this is how the busy loop of the source
  that waits for the next millisecond is represented.
-/

/-! ## 64-bit integers -/

/-- Two's-complement reduction of an integer to the `int64` range. -/
def wrap64 (x : Int) : Int := (x + 2 ^ 63) % 2 ^ 64 - 2 ^ 63

/-- Go's `x << k` on `int64` (bits shifted out of the word are lost). -/
def shl64 (x : Int) (k : Nat) : Int := wrap64 (x * 2 ^ k)

/-- The values of type `int64`. -/
def IsInt64 (x : Int) : Prop := -(2 ^ 63) ≤ x ∧ x < 2 ^ 63

instance (x : Int) : Decidable (IsInt64 x) := by
  unfold IsInt64; infer_instance

/-! ## Time -/

/-- Largest `time.Duration` (nanoseconds). -/
def maxDuration : Int := 2 ^ 63 - 1

/-- Smallest `time.Duration` (nanoseconds). -/
def minDuration : Int := -(2 ^ 63)

/-- The result of `t.Sub(u)` for two instants given in nanoseconds since the Unix
epoch: the difference, saturated to the range of `time.Duration`. -/
def timeSub (t u : Int) : Int :=
  if t - u > maxDuration then maxDuration
  else if t - u < minDuration then minDuration
  else t - u

/-- The instant `time.Unix(sec, nsec)` in nanoseconds since the Unix epoch. -/
def timeUnix (sec nsec : Int) : Int := sec * 1000000000 + nsec

/-- The value of
`time.Date(2024, 9, 10, 15, 17, 0, 0, time.Local).UnixNano() / int64(time.Millisecond)`
when the local zone is `zoneOffset` seconds east of UTC. -/
def defaultEpoch (zoneOffset : Int) : Int :=
  Int.tdiv (wrap64 ((1725981420 - zoneOffset) * 1000000000)) 1000000

/-! ## The generator -/

/-- The struct `Snowflake` without its mutex.  `epoch` is an instant in
nanoseconds since the Unix epoch. -/
structure Snowflake where
  epoch : Int
  nodeBits : Nat
  sequenceBits : Nat
  maxNodeID : Int
  maxSequence : Int
  nodeID : Int
  sequence : Int
  lastTimestamp : Int
  nodeShift : Nat
  timestampShift : Nat
deriving DecidableEq, Repr

/-- The struct `SnowflakeOption`. -/
structure SnowflakeOption where
  Epoch : Int
  NodeID : Int
deriving DecidableEq, Repr

/-- What a call of `NewSnowflake` leaves behind: the option record behind the
pointer it was given, and the pair it returns (`none` is the nil generator,
`some msg` the error). -/
structure NewResult where
  option : SnowflakeOption
  snowflake : Option Snowflake
  err : Option String
deriving DecidableEq, Repr

/-- The function `NewSnowflake`.  `zoneOffset` is the offset of `time.Local` and
`now` the value of `time.Now()` in nanoseconds since the Unix epoch. -/
def NewSnowflake (zoneOffset now : Int) (option : SnowflakeOption) : NewResult :=
  let nodeBits : Nat := 10
  let sequenceBits : Nat := 12
  let option : SnowflakeOption :=
    if option.Epoch = 0 then { option with Epoch := defaultEpoch zoneOffset } else option
  let epoch :=
    now + timeSub (timeUnix (Int.tdiv option.Epoch 1000)
      (wrap64 (Int.tmod option.Epoch 1000 * 1000000))) now
  let maxNodeID := Int.xor (-1) (shl64 (-1) nodeBits)
  let maxSequence := Int.xor (-1) (shl64 (-1) sequenceBits)
  if option.NodeID < 0 ∨ option.NodeID > maxNodeID then
    { option := option
      snowflake := none
      err := some ("node id must be between 0 and " ++ toString maxNodeID) }
  else
    let nodeShift := sequenceBits
    let timestampShift := (nodeBits + sequenceBits) % 256
    { option := option
      snowflake := some
        { epoch := epoch
          nodeBits := nodeBits
          sequenceBits := sequenceBits
          maxNodeID := maxNodeID
          maxSequence := maxSequence
          nodeID := option.NodeID
          sequence := 0
          lastTimestamp := -1
          nodeShift := nodeShift
          timestampShift := timestampShift }
      err := none }

/-- The method `build`: the identifier packed from the state. -/
def Snowflake.build (s : Snowflake) : Int :=
  Int.lor (Int.lor (shl64 s.lastTimestamp s.timestampShift) (shl64 s.nodeID s.nodeShift))
    s.sequence

/-- The argument of `time.Sleep` in `ID`:
`time.Millisecond * time.Duration(offset << 1)`, in nanoseconds. -/
def sleepDuration (offset : Int) : Int := wrap64 (1000000 * shl64 offset 1)

/-- What a returned call of `ID` leaves behind: the identifier it returns, the
state of the generator, the clock readings not yet consumed, and the durations
it passed to `time.Sleep`. -/
structure Outcome where
  id : Int
  state : Snowflake
  clock : List Int
  slept : List Int
deriving DecidableEq, Repr

/-- The loop `for now <= s.lastTimestamp { now = s.currentTimestamp() }`: the
first value of `now` above `last` and the readings left. -/
def waitNext (last : Int) : Int → List Int → Option (Int × List Int)
  | now, [] => if now ≤ last then none else some (now, [])
  | now, r :: rest => if now ≤ last then waitNext last r rest else some (now, r :: rest)

/-- The part of `ID` from `if now == s.lastTimestamp` to the end, entered with
the value `now`. -/
def Snowflake.produce (s : Snowflake) (now : Int) (clock slept : List Int) :
    Option Outcome :=
  if now = s.lastTimestamp then
    let s1 : Snowflake :=
      { s with sequence := Int.land (wrap64 (s.sequence + 1)) s.maxSequence }
    if s1.sequence = 0 then
      match waitNext s1.lastTimestamp now clock with
      | none => none
      | some (now, clock) =>
        let s2 : Snowflake := { s1 with lastTimestamp := now }
        some { id := s2.build, state := s2, clock := clock, slept := slept }
    else
      let s2 : Snowflake := { s1 with lastTimestamp := now }
      some { id := s2.build, state := s2, clock := clock, slept := slept }
  else
    let s1 : Snowflake := { s with sequence := 0 }
    let s2 : Snowflake := { s1 with lastTimestamp := now }
    some { id := s2.build, state := s2, clock := clock, slept := slept }

/-- The method `ID`, run on the clock readings `clock`. -/
def Snowflake.ID (s : Snowflake) (clock : List Int) : Option Outcome :=
  match clock with
  | [] => none
  | now :: clock =>
    if now < s.lastTimestamp then
      let offset := wrap64 (s.lastTimestamp - now)
      if offset ≤ 5 then
        let slept := [sleepDuration offset]
        match clock with
        | [] => none
        | now :: clock =>
          if now < s.lastTimestamp then
            some { id := -1, state := s, clock := clock, slept := slept }
          else s.produce now clock slept
      else
        some { id := -1, state := s, clock := clock, slept := [] }
    else s.produce now clock []

/-- Up to `k` successive calls of `ID`: the identifiers returned, in order, with
the final state and the readings left.  The run ends early at a call that has
not returned. -/
def runIDs : Nat → Snowflake → List Int → List Int × Snowflake × List Int
  | 0, s, clock => ([], s, clock)
  | k + 1, s, clock =>
    match s.ID clock with
    | none => ([], s, [])
    | some o =>
      let r := runIDs k o.state o.clock
      (o.id :: r.1, r.2.1, r.2.2)

/-- The generator that `NewSnowflake` returns for a node identifier in range
(with the built-in epoch, zone UTC, constructed at instant `0`). -/
def mkSnowflake (nodeID : Int) : Snowflake :=
  { epoch := 1725981420000000000
    nodeBits := 10
    sequenceBits := 12
    maxNodeID := 1023
    maxSequence := 4095
    nodeID := nodeID
    sequence := 0
    lastTimestamp := -1
    nodeShift := 12
    timestampShift := 22 }

/-! ## Identifiers and their encodings

A Go `string` and a `[]byte` are both a list of bytes, a byte being a natural
number below `256`; the conversions `[]byte(s)` and `string(b)` are the
identity. -/

/-- The error kinds of `strconv.NumError`. -/
inductive NumError where
  | ErrSyntax
  | ErrRange
deriving DecidableEq, Repr

/-- The digit loop of `strconv.formatBits` in base ten: the digits of `u` are
written in front of `acc`, the last one first.  `room` is the number of free
bytes of the buffer. -/
def formatLoop : Nat → Nat → List Nat → List Nat
  | 0, _, acc => acc
  | room + 1, u, acc =>
    if u ≥ 10 then formatLoop room (u / 10) ((48 + u % 10) :: acc)
    else (48 + u) :: acc

/-- Go's `strconv.formatBits` in base ten on the `uint64` value `u`: when `neg`,
`u` is negated first and a minus sign is put in front.  The buffer of the
library holds `65` bytes. -/
def formatBits (u : Nat) (neg : Bool) : List Nat :=
  let u := if neg then (2 ^ 64 - u) % 2 ^ 64 else u
  let a := formatLoop 65 u []
  if neg then 45 :: a else a

/-- Go's `strconv.FormatInt(i, 10)`. -/
def FormatInt (i : Int) : List Nat := formatBits (i % 2 ^ 64).toNat (decide (i < 0))

/-- The loop of `strconv.ParseUint(s, 10, 64)` over the bytes of `s`, entered
with the value `n` read so far: the value and the error it returns. -/
def parseUintLoop : List Nat → Nat → Nat × Option NumError
  | [], n => (n, none)
  | c :: cs, n =>
    if 48 ≤ c ∧ c ≤ 57 then
      if n ≥ (2 ^ 64 - 1) / 10 + 1 then (2 ^ 64 - 1, some NumError.ErrRange)
      else
        let n10 := n * 10 % 2 ^ 64
        let n1 := (n10 + (c - 48)) % 2 ^ 64
        if n1 < n10 ∨ n1 > 2 ^ 64 - 1 then (2 ^ 64 - 1, some NumError.ErrRange)
        else parseUintLoop cs n1
    else (0, some NumError.ErrSyntax)

/-- Go's `strconv.ParseUint(s, 10, 64)`. -/
def ParseUint (s : List Nat) : Nat × Option NumError :=
  match s with
  | [] => (0, some NumError.ErrSyntax)
  | _ :: _ => parseUintLoop s 0

/-- Go's `strconv.ParseInt(s, 10, 64)`. -/
def ParseInt (s : List Nat) : Int × Option NumError :=
  match s with
  | [] => (0, some NumError.ErrSyntax)
  | c :: rest =>
    let neg := c = 45
    let s1 := if c = 43 ∨ c = 45 then rest else s
    let r := ParseUint s1
    if r.2 = some NumError.ErrSyntax then (0, r.2)
    else if ¬ neg ∧ r.1 ≥ 2 ^ 63 then (2 ^ 63 - 1, some NumError.ErrRange)
    else if neg ∧ r.1 > 2 ^ 63 then (-(2 ^ 63), some NumError.ErrRange)
    else
      let n := wrap64 (r.1 : Int)
      (if neg then wrap64 (-n) else n, none)

/-- The method `Int64`. -/
def SnowflakeID.Int64 (id : Int) : Int := id

/-- The method `String`. -/
def SnowflakeID.String (id : Int) : List Nat := FormatInt (SnowflakeID.Int64 id)

/-- The method `Bytes`. -/
def SnowflakeID.Bytes (id : Int) : List Nat := SnowflakeID.String id

/-- The function `ParseInt64`. -/
def ParseInt64 (id : Int) : Int := id

/-- The function `ParseString`. -/
def ParseString (id : List Nat) : Int × Option NumError := ParseInt id

/-- The function `ParseBytes`. -/
def ParseBytes (id : List Nat) : Int × Option NumError := ParseInt id

/-- The alphabet of `base64.StdEncoding`. -/
def encodeStd : List Nat :=
  "ABCDEFGHIJKLMNOPQRSTUVWXYZabcdefghijklmnopqrstuvwxyz0123456789+/".toList.map Char.toNat

/-- The table `enc.encode` of `base64.StdEncoding`, read at a 6-bit index. -/
def encodeByte (i : Nat) : Nat := encodeStd.getD i 0

/-- The table `enc.decodeMap` of `base64.StdEncoding`: the index of a byte in
the alphabet, `0xFF` for a byte outside it. -/
def decodeMap (c : Nat) : Nat := if c ∈ encodeStd then encodeStd.indexOf c else 255

/-- Go's `base64.StdEncoding.EncodeToString`: three bytes give four characters,
and a last group of one or two bytes is padded with `=`. -/
def EncodeToString : List Nat → List Nat
  | [] => []
  | [b0] =>
    let val := b0 <<< 16
    [encodeByte (val >>> 18 &&& 63), encodeByte (val >>> 12 &&& 63), 61, 61]
  | [b0, b1] =>
    let val := b0 <<< 16 ||| b1 <<< 8
    [encodeByte (val >>> 18 &&& 63), encodeByte (val >>> 12 &&& 63),
      encodeByte (val >>> 6 &&& 63), 61]
  | b0 :: b1 :: b2 :: rest =>
    let val := b0 <<< 16 ||| b1 <<< 8 ||| b2
    encodeByte (val >>> 18 &&& 63) :: encodeByte (val >>> 12 &&& 63) ::
      encodeByte (val >>> 6 &&& 63) :: encodeByte (val &&& 63) :: EncodeToString rest

/-- The bytes that `decodeQuantum` writes for the 6-bit values `dbuf`, of which
`dlen` were read (the others are `0`). -/
def quantumBytes (dbuf : List Nat) (dlen : Nat) : List Nat :=
  let val := dbuf.getD 0 0 <<< 18 ||| dbuf.getD 1 0 <<< 12 ||| dbuf.getD 2 0 <<< 6 |||
    dbuf.getD 3 0
  [val >>> 16 % 256, val >>> 8 % 256, val >>> 0 % 256].take (dlen - 1)

/-- The loops of `decodeQuantum` that skip line feeds and carriage returns. -/
def skipNewlines : List Nat → List Nat
  | [] => []
  | c :: rest => if c = 10 ∨ c = 13 then skipNewlines rest else c :: rest

/-- Go's `base64.StdEncoding.Decode` as the repetition of `decodeQuantum` over
the input: `j` values of the current quantum have been read into `dbuf`.  The
result is `none` when the library returns a `CorruptInputError` (the bytes it
returns beside the error are not modelled). -/
def decodeLoop : List Nat → Nat → List Nat → Option (List Nat)
  | [], j, _ => if j = 0 then some [] else none
  | c :: rest, j, dbuf =>
    if decodeMap c ≠ 255 then
      if j = 3 then
        (decodeLoop rest 0 []).map (fun out => quantumBytes (dbuf ++ [decodeMap c]) 4 ++ out)
      else decodeLoop rest (j + 1) (dbuf ++ [decodeMap c])
    else if c = 10 ∨ c = 13 then decodeLoop rest j dbuf
    else if c ≠ 61 then none
    else if j = 0 ∨ j = 1 then none
    else if j = 2 then
      match skipNewlines rest with
      | [] => none
      | c2 :: rest2 =>
        if c2 ≠ 61 then none
        else if skipNewlines rest2 ≠ [] then none
        else some (quantumBytes dbuf j)
    else if skipNewlines rest ≠ [] then none
    else some (quantumBytes dbuf j)

/-- Go's `base64.StdEncoding.DecodeString`. -/
def DecodeString (s : List Nat) : Option (List Nat) := decodeLoop s 0 []

/-- The errors that `ParseBase64` returns. -/
inductive Base64Error where
  | CorruptInput
  | Num (e : NumError)
deriving DecidableEq, Repr

/-- The method `Base64`. -/
def SnowflakeID.Base64 (id : Int) : List Nat := EncodeToString (SnowflakeID.Bytes id)

/-- The function `ParseBase64`. -/
def ParseBase64 (id : List Nat) : Int × Option Base64Error :=
  match DecodeString id with
  | none => (-1, some Base64Error.CorruptInput)
  | some b => ((ParseBytes b).1, (ParseBytes b).2.map Base64Error.Num)

/-! ## Predicates used in the statements -/

/-- The constants that `NewSnowflake` sets, with a node identifier in range. -/
def Snowflake.Consts (s : Snowflake) : Prop :=
  s.nodeBits = 10 ∧ s.sequenceBits = 12 ∧ s.maxNodeID = 1023 ∧ s.maxSequence = 4095 ∧
    s.nodeShift = 12 ∧ s.timestampShift = 22 ∧ 0 ≤ s.nodeID ∧ s.nodeID ≤ 1023

/-- The states of a generator whose clock stays in the 41-bit range: the
constants of `NewSnowflake`, a sequence in `[0, 4095]` and a last timestamp that
is the initial `-1` or a 41-bit value. -/
def Snowflake.Inv (s : Snowflake) : Prop :=
  s.Consts ∧ 0 ≤ s.sequence ∧ s.sequence ≤ 4095 ∧ -1 ≤ s.lastTimestamp ∧
    s.lastTimestamp < 2 ^ 41

/-- The triple (timestamp, node, sequence) of a state read as one number. -/
def Snowflake.key (s : Snowflake) : Int :=
  s.lastTimestamp * 2 ^ 22 + s.nodeID * 2 ^ 12 + s.sequence

/-- Clock readings that all lie in the 41-bit timestamp range. -/
def InRange (clock : List Int) : Prop := ∀ r ∈ clock, 0 ≤ r ∧ r < 2 ^ 41

/-- The number that a list of decimal digits denotes. -/
def decimalValue (ds : List Nat) : Nat := ds.foldl (fun a c => a * 10 + (c - 48)) 0

/-- Following the words of the specification, a text that is a valid signed
64-bit decimal integer: an optional sign `+` or `-`, then at least one decimal
digit and nothing else, the number denoted lying in `[-2^63, 2^63 - 1]`. -/
def IsDecimalInt64 (s : List Nat) : Prop :=
  ∃ ds, ds ≠ [] ∧ (∀ c ∈ ds, 48 ≤ c ∧ c ≤ 57) ∧
    ((s = ds ∧ decimalValue ds ≤ 2 ^ 63 - 1) ∨ (s = 43 :: ds ∧ decimalValue ds ≤ 2 ^ 63 - 1) ∨
      (s = 45 :: ds ∧ decimalValue ds ≤ 2 ^ 63))

/-- The integer that a signed decimal text denotes. -/
def decimalInt (s : List Nat) : Int :=
  match s with
  | [] => 0
  | c :: rest =>
    if c = 45 then -(decimalValue rest : Int)
    else if c = 43 then (decimalValue rest : Int)
    else (decimalValue (c :: rest) : Int)

/-- A text without its line feeds and carriage returns. -/
def dropNewlines (s : List Nat) : List Nat := s.filter (fun c => decide (c ≠ 10 ∧ c ≠ 13))

/-- Following the words of the specification, a text that is valid standard
base64: line feeds and carriage returns apart, characters of the alphabet
followed by no padding, by `==` or by `=`, in groups of four. -/
def IsStdBase64 (s : List Nat) : Prop :=
  ∃ pre pad, dropNewlines s = pre ++ pad ∧ (∀ c ∈ pre, c ∈ encodeStd) ∧
    ((pad = [] ∧ pre.length % 4 = 0) ∨ (pad = [61, 61] ∧ pre.length % 4 = 2) ∨
      (pad = [61] ∧ pre.length % 4 = 3))

/-- The texts that complete a standard base64 text of which `j` characters of
the current group of four have been read. -/
def IsStdBase64From (j : Nat) (s : List Nat) : Prop :=
  ∃ pre pad, dropNewlines s = pre ++ pad ∧ (∀ c ∈ pre, c ∈ encodeStd) ∧
    ((pad = [] ∧ (j + pre.length) % 4 = 0) ∨ (pad = [61, 61] ∧ (j + pre.length) % 4 = 2) ∨
      (pad = [61] ∧ (j + pre.length) % 4 = 3))

instance (s : Snowflake) : Decidable s.Consts := by
  unfold Snowflake.Consts; infer_instance

instance (s : Snowflake) : Decidable s.Inv := by
  unfold Snowflake.Inv; infer_instance

instance (clock : List Int) : Decidable (InRange clock) := by
  unfold InRange; infer_instance

/-! ## Facts about 64-bit arithmetic -/

theorem wrap64_of_isInt64 {x : Int} (h : IsInt64 x) : wrap64 x = x := by
  unfold IsInt64 at h
  unfold wrap64
  omega

theorem wrap64_isInt64 (x : Int) : IsInt64 (wrap64 x) := by
  unfold IsInt64 wrap64
  omega

theorem lor_natCast (a b : Nat) : Int.lor (a : Int) (b : Int) = ((a ||| b : Nat) : Int) := rfl

theorem land_natCast (a b : Nat) : Int.land (a : Int) (b : Int) = ((a &&& b : Nat) : Int) := rfl

/-- Packing three fields that fit their widths is addition. -/
theorem pack_nat (a b c : Nat) (hb : b < 2 ^ 10) (hc : c < 2 ^ 12) :
    (a * 2 ^ 22 ||| b * 2 ^ 12) ||| c = a * 2 ^ 22 + b * 2 ^ 12 + c := by
  have h1 : b * 2 ^ 12 < 2 ^ 22 := by omega
  have h2 : a * 2 ^ 22 ||| b * 2 ^ 12 = a * 2 ^ 22 + b * 2 ^ 12 := by
    have := Nat.mul_add_lt_is_or h1 a
    rw [Nat.mul_comm (2 ^ 22) a] at this
    exact this.symm
  rw [h2]
  have h3 : a * 2 ^ 22 + b * 2 ^ 12 = 2 ^ 12 * (a * 2 ^ 10 + b) := by ring
  rw [h3]
  exact (Nat.mul_add_lt_is_or hc _).symm

theorem shl64_natCast (a k : Nat) (h : a * 2 ^ k < 2 ^ 63) :
    shl64 (a : Int) k = ((a * 2 ^ k : Nat) : Int) := by
  unfold shl64
  rw [wrap64_of_isInt64]
  · push_cast; rfl
  · unfold IsInt64
    have : ((a * 2 ^ k : Nat) : Int) < ((2 ^ 63 : Nat) : Int) := by exact_mod_cast h
    push_cast at this
    constructor
    · have : (0 : Int) ≤ (a : Int) * 2 ^ k := by positivity
      omega
    · exact this

/-- Packing in-range fields with the shifts of `NewSnowflake` is addition. -/
theorem pack_int {t n q : Int} (ht : 0 ≤ t) (ht1 : t < 2 ^ 41) (hn : 0 ≤ n) (hn1 : n ≤ 1023)
    (hq : 0 ≤ q) (hq1 : q ≤ 4095) :
    Int.lor (Int.lor (shl64 t 22) (shl64 n 12)) q = t * 2 ^ 22 + n * 2 ^ 12 + q := by
  obtain ⟨a, rfl⟩ := Int.eq_ofNat_of_zero_le ht
  obtain ⟨b, rfl⟩ := Int.eq_ofNat_of_zero_le hn
  obtain ⟨c, rfl⟩ := Int.eq_ofNat_of_zero_le hq
  have ha : a < 2 ^ 41 := by exact_mod_cast ht1
  have hb : b ≤ 1023 := by exact_mod_cast hn1
  have hc : c ≤ 4095 := by exact_mod_cast hq1
  rw [shl64_natCast a 22 (by omega), shl64_natCast b 12 (by omega), lor_natCast, lor_natCast,
    pack_nat a b c (by omega) (by omega)]
  push_cast
  rfl

/-- The wrapping increment of a sequence in range. -/
theorem land_succ {q : Int} (hq : 0 ≤ q) (hq1 : q ≤ 4095) :
    Int.land (wrap64 (q + 1)) 4095 = (q + 1) % 4096 := by
  obtain ⟨c, rfl⟩ := Int.eq_ofNat_of_zero_le hq
  have hc : c ≤ 4095 := by exact_mod_cast hq1
  rw [wrap64_of_isInt64 (by unfold IsInt64; omega)]
  have h : ((c : Int) + 1) = ((c + 1 : Nat) : Int) := by push_cast; rfl
  rw [h]
  have h2 : (4095 : Int) = ((2 ^ 12 - 1 : Nat) : Int) := by norm_num
  rw [h2, land_natCast, Nat.and_pow_two_sub_one_eq_mod]
  push_cast
  rfl

theorem build_eq_key {s : Snowflake} (hs : s.Inv) (h0 : 0 ≤ s.lastTimestamp) :
    s.build = s.key := by
  obtain ⟨⟨_, _, _, _, h5, h6, h7, h8⟩, h9, h10, _, h12⟩ := hs
  unfold Snowflake.build Snowflake.key
  rw [h5, h6]
  exact pack_int h0 h12 h7 h8 h9 h10

theorem waitNext_spec (last : Int) :
    ∀ (clock : List Int) (now : Int) (r : Int × List Int),
      waitNext last now clock = some r →
        last < r.1 ∧ ∃ pre, now :: clock = pre ++ r.1 :: r.2 ∧ ∀ x ∈ pre, x ≤ last := by
  intro clock
  induction clock with
  | nil =>
    intro now r h
    unfold waitNext at h
    split at h
    · exact absurd h (by simp)
    · cases h
      exact ⟨by simpa using ‹¬ now ≤ last›, [], by simp⟩
  | cons x rest ih =>
    intro now r h
    unfold waitNext at h
    split at h
    · obtain ⟨h1, pre, h2, h3⟩ := ih x r h
      refine ⟨h1, now :: pre, by simp [h2], ?_⟩
      intro y hy
      rcases List.mem_cons.1 hy with rfl | hy
      · assumption
      · exact h3 y hy
    · cases h
      exact ⟨by simpa using ‹¬ now ≤ last›, [], by simp⟩

theorem produce_step {s : Snowflake} (hs : s.Inv) {now : Int} {clock slept : List Int}
    {o : Outcome} (h0 : 0 ≤ now) (h1 : now < 2 ^ 41) (hL : s.lastTimestamp ≤ now)
    (hc : InRange clock) (h : s.produce now clock slept = some o) :
    o.state.Inv ∧ o.state.nodeID = s.nodeID ∧ o.id = o.state.key ∧ s.key < o.state.key ∧
      0 ≤ o.state.lastTimestamp ∧ o.slept = slept ∧
      ∃ pre, now :: clock = pre ++ o.state.lastTimestamp :: o.clock := by
  have hs0 := hs
  obtain ⟨⟨c1, c2, c3, c4, c5, c6, c7, c8⟩, q0, q1, l0, l1⟩ := hs
  unfold Snowflake.produce at h
  by_cases hnow : now = s.lastTimestamp
  · rw [if_pos hnow] at h
    simp only [c4, land_succ q0 q1] at h
    by_cases hz : (s.sequence + 1) % 4096 = 0
    · rw [if_pos hz] at h
      cases hw : waitNext s.lastTimestamp now clock with
      | none => rw [hw] at h; exact absurd h (by simp)
      | some r =>
        obtain ⟨now2, clock2⟩ := r
        rw [hw] at h
        simp only [Option.some.injEq] at h
        obtain ⟨h2, pre, h3, -⟩ := waitNext_spec _ _ _ _ hw
        simp only at h2 h3
        have hmem : now2 ∈ now :: clock := by rw [h3]; simp
        have hr : 0 ≤ now2 ∧ now2 < 2 ^ 41 := by
          rcases List.mem_cons.1 hmem with rfl | hm
          · exact ⟨h0, h1⟩
          · exact hc _ hm
        have hinv : o.state.Inv := by
          subst h
          exact ⟨⟨c1, c2, c3, rfl, c5, c6, c7, c8⟩, by simp [hz], by simp [hz], by simp; omega,
            by simp; omega⟩
        refine ⟨hinv, by subst h; rfl, ?_, ?_, by subst h; exact hr.1, by subst h; rfl,
          pre, by subst h; exact h3⟩
        · have := build_eq_key hinv (by subst h; exact hr.1)
          subst h
          exact this
        · subst h
          simp only [Snowflake.key, hz]
          omega
    · rw [if_neg hz] at h
      simp only [Option.some.injEq] at h
      have hq : (s.sequence + 1) % 4096 = s.sequence + 1 := by omega
      have hinv : o.state.Inv := by
        subst h
        exact ⟨⟨c1, c2, c3, rfl, c5, c6, c7, c8⟩, by simp [hq]; omega, by simp [hq]; omega,
          by simp; omega, by simp; omega⟩
      refine ⟨hinv, by subst h; rfl, ?_, ?_, by subst h; exact h0, by subst h; rfl,
        [], by subst h; rfl⟩
      · have := build_eq_key hinv (by subst h; exact h0)
        subst h
        exact this
      · subst h
        simp only [Snowflake.key, hq]
        omega
  · rw [if_neg hnow] at h
    simp only [Option.some.injEq] at h
    have hinv : o.state.Inv := by
      subst h
      exact ⟨⟨c1, c2, c3, c4, c5, c6, c7, c8⟩, by simp, by simp, by simp; omega, by simp; omega⟩
    refine ⟨hinv, by subst h; rfl, ?_, ?_, by subst h; exact h0, by subst h; rfl,
      [], by subst h; rfl⟩
    · have := build_eq_key hinv (by subst h; exact h0)
      subst h
      exact this
    · subst h
      simp only [Snowflake.key]
      omega

/-- One call of `ID` on in-range readings: either it fails on a reading below
the last timestamp and leaves the state alone, or it returns the key of the new
state, which lies above the key of the old one. -/
theorem ID_step {s : Snowflake} (hs : s.Inv) {clock : List Int} {o : Outcome}
    (hc : InRange clock) (h : s.ID clock = some o) :
    (o.id = -1 ∧ o.state = s ∧ (∃ pre, clock = pre ++ o.clock) ∧
        ∃ r ∈ clock, r < s.lastTimestamp) ∨
      (o.state.Inv ∧ o.state.nodeID = s.nodeID ∧ o.id = o.state.key ∧ s.key < o.state.key ∧
        0 ≤ o.state.lastTimestamp ∧
        ∃ pre, clock = pre ++ o.state.lastTimestamp :: o.clock) := by
  cases clock with
  | nil => exact absurd h (by simp [Snowflake.ID])
  | cons now c1 =>
    have hn := hc now (by simp)
    have hc1 : InRange c1 := fun r hr => hc r (by simp [hr])
    unfold Snowflake.ID at h
    simp only at h
    by_cases hb : now < s.lastTimestamp
    · rw [if_pos hb] at h
      by_cases ho : wrap64 (s.lastTimestamp - now) ≤ 5
      · rw [if_pos ho] at h
        cases c1 with
        | nil => exact absurd h (by simp)
        | cons now2 c2 =>
          simp only at h
          have hn2 := hc now2 (by simp)
          have hc2 : InRange c2 := fun r hr => hc1 r (by simp [hr])
          by_cases hb2 : now2 < s.lastTimestamp
          · rw [if_pos hb2] at h
            simp only [Option.some.injEq] at h
            subst h
            exact Or.inl ⟨rfl, rfl, ⟨[now, now2], rfl⟩, now, by simp, hb⟩
          · rw [if_neg hb2] at h
            obtain ⟨i1, i2, i3, i4, i5, -, pre, i7⟩ :=
              produce_step hs hn2.1 hn2.2 (by omega) hc2 h
            exact Or.inr ⟨i1, i2, i3, i4, i5, now :: pre, by simp [i7]⟩
      · rw [if_neg ho] at h
        simp only [Option.some.injEq] at h
        subst h
        exact Or.inl ⟨rfl, rfl, ⟨[now], rfl⟩, now, by simp, hb⟩
    · rw [if_neg hb] at h
      obtain ⟨i1, i2, i3, i4, i5, -, pre, i7⟩ := produce_step hs hn.1 hn.2 (by omega) hc1 h
      exact Or.inr ⟨i1, i2, i3, i4, i5, pre, i7⟩

theorem inRange_of_append {pre post : List Int} (h : InRange (pre ++ post)) : InRange post :=
  fun r hr => h r (List.mem_append.2 (Or.inr hr))

theorem key_nonneg {s : Snowflake} (hs : s.Inv) (h0 : 0 ≤ s.lastTimestamp) : 0 ≤ s.key := by
  obtain ⟨⟨_, _, _, _, _, _, c7, _⟩, q0, _, _, _⟩ := hs
  unfold Snowflake.key
  omega

/-- The identifiers of a run that are not the sentinel increase strictly and lie
above the key of the starting state. -/
theorem runIDs_increasing :
    ∀ (k : Nat) (s : Snowflake) (clock : List Int), s.Inv → InRange clock →
      (∀ x ∈ (runIDs k s clock).1.filter (fun i => decide (i ≠ -1)), s.key < x) ∧
        ((runIDs k s clock).1.filter (fun i => decide (i ≠ -1))).Pairwise (· < ·) := by
  intro k
  induction k with
  | zero => intro s clock _ _; simp [runIDs]
  | succ k ih =>
    intro s clock hs hc
    unfold runIDs
    cases h : s.ID clock with
    | none => simp
    | some o =>
      simp only
      rcases ID_step hs hc h with ⟨f1, f2, ⟨pre, f3⟩, -⟩ | ⟨i1, i2, i3, i4, i5, pre, i6⟩
      · have hc2 : InRange o.clock := inRange_of_append (f3 ▸ hc)
        have := ih o.state o.clock (f2 ▸ hs) hc2
        rw [f2] at this ⊢
        simpa [f1] using this
      · have hc2 : InRange o.clock := by
          have := inRange_of_append (i6 ▸ hc)
          exact fun r hr => this r (by simp [hr])
        obtain ⟨g1, g2⟩ := ih o.state o.clock i1 hc2
        have hne : o.id ≠ -1 := by
          have := key_nonneg i1 i5
          omega
        rw [List.filter_cons_of_pos (by simpa using hne)]
        refine ⟨?_, ?_⟩
        · intro x hx
          rcases List.mem_cons.1 hx with rfl | hx
          · omega
          · have := g1 x hx
            omega
        · refine List.Pairwise.cons ?_ g2
          intro x hx
          have := g1 x hx
          omega

/-! ## Construction -/

theorem maxNodeID_eq : Int.xor (-1) (shl64 (-1) 10) = 1023 := by decide

theorem maxSequence_eq : Int.xor (-1) (shl64 (-1) 12) = 4095 := by decide

/-- The option record after the call: only a zero `Epoch` is replaced. -/
theorem NewSnowflake_option (zoneOffset now : Int) (option : SnowflakeOption) :
    (NewSnowflake zoneOffset now option).option =
      if option.Epoch = 0 then { option with Epoch := defaultEpoch zoneOffset } else option := by
  unfold NewSnowflake
  by_cases h : option.Epoch = 0
  · simp only [h, if_true]
    split <;> rfl
  · simp only [h, if_false]
    split <;> rfl

theorem NewSnowflake_nodeID (zoneOffset now : Int) (option : SnowflakeOption) :
    (NewSnowflake zoneOffset now option).option.NodeID = option.NodeID := by
  rw [NewSnowflake_option]
  split <;> rfl

/-- The two results of `NewSnowflake`, by the range of the node identifier. -/
theorem NewSnowflake_cases (zoneOffset now : Int) (option : SnowflakeOption) :
    ((option.NodeID < 0 ∨ option.NodeID > 1023) ∧
        (NewSnowflake zoneOffset now option).snowflake = none ∧
        (NewSnowflake zoneOffset now option).err =
          some ("node id must be between 0 and " ++ toString (1023 : Int))) ∨
      ((0 ≤ option.NodeID ∧ option.NodeID ≤ 1023) ∧
        (NewSnowflake zoneOffset now option).err = none ∧
        ∃ s, (NewSnowflake zoneOffset now option).snowflake = some s ∧
          s.Inv ∧ s.nodeID = option.NodeID ∧ s.sequence = 0 ∧ s.lastTimestamp = -1) := by
  by_cases hr : option.NodeID < 0 ∨ option.NodeID > 1023
  · left
    refine ⟨hr, ?_, ?_⟩
    · unfold NewSnowflake
      simp only [maxNodeID_eq, maxSequence_eq]
      by_cases h : option.Epoch = 0
      · simp only [h, if_true]; rw [if_pos hr]
      · simp only [h, if_false]; rw [if_pos hr]
    · unfold NewSnowflake
      simp only [maxNodeID_eq, maxSequence_eq]
      by_cases h : option.Epoch = 0
      · simp only [h, if_true]; rw [if_pos hr]
      · simp only [h, if_false]; rw [if_pos hr]
  · right
    have h1 : 0 ≤ option.NodeID ∧ option.NodeID ≤ 1023 := by omega
    refine ⟨h1, ?_, ?_⟩
    · unfold NewSnowflake
      simp only [maxNodeID_eq, maxSequence_eq]
      by_cases h : option.Epoch = 0
      · simp only [h, if_true]; rw [if_neg hr]
      · simp only [h, if_false]; rw [if_neg hr]
    · unfold NewSnowflake
      simp only [maxNodeID_eq, maxSequence_eq]
      by_cases h : option.Epoch = 0
      · simp only [h, if_true]; rw [if_neg hr]
        exact ⟨_, rfl, ⟨⟨rfl, rfl, rfl, rfl, rfl, rfl, h1.1, h1.2⟩, by simp, by simp,
          by simp, by simp⟩, rfl, rfl, rfl⟩
      · simp only [h, if_false]; rw [if_neg hr]
        exact ⟨_, rfl, ⟨⟨rfl, rfl, rfl, rfl, rfl, rfl, h1.1, h1.2⟩, by simp, by simp,
          by simp, by simp⟩, rfl, rfl, rfl⟩

/-- A generator returned by `NewSnowflake` is in its initial state. -/
theorem NewSnowflake_some {zoneOffset now : Int} {option : SnowflakeOption} {s : Snowflake}
    (h : (NewSnowflake zoneOffset now option).snowflake = some s) :
    s.Inv ∧ s.nodeID = option.NodeID ∧ s.sequence = 0 ∧ s.lastTimestamp = -1 := by
  rcases NewSnowflake_cases zoneOffset now option with ⟨-, h1, -⟩ | ⟨-, -, s1, h1, h2⟩
  · rw [h1] at h; exact absurd h (by simp)
  · rw [h1] at h
    simp only [Option.some.injEq] at h
    exact h ▸ h2


/-- Under readings that never go backward and never lie below the last
timestamp, no call of a run returns the sentinel. -/
theorem runIDs_no_sentinel :
    ∀ (k : Nat) (s : Snowflake) (clock : List Int), s.Inv → InRange clock →
      clock.Pairwise (· ≤ ·) → (∀ r ∈ clock, s.lastTimestamp ≤ r) →
      ∀ x ∈ (runIDs k s clock).1, x ≠ -1 := by
  intro k
  induction k with
  | zero => intro s clock _ _ _ _; simp [runIDs]
  | succ k ih =>
    intro s clock hs hc hsorted hlast
    unfold runIDs
    cases h : s.ID clock with
    | none => simp
    | some o =>
      simp only
      rcases ID_step hs hc h with ⟨-, -, -, r, hr, hlt⟩ | ⟨i1, -, i3, -, i5, pre, i6⟩
      · have := hlast r hr
        omega
      · have hc2 : InRange o.clock := by
          have := inRange_of_append (i6 ▸ hc)
          exact fun r hr => this r (by simp [hr])
        rw [i6] at hsorted
        have hs2 := (List.pairwise_append.1 hsorted).2.1
        rw [List.pairwise_cons] at hs2
        have := ih o.state o.clock i1 hc2 hs2.2 hs2.1
        intro x hx
        rcases List.mem_cons.1 hx with rfl | hx
        · have := key_nonneg i1 i5
          omega
        · exact this x hx

theorem runIDs_length_or_exhausted :
    ∀ (k : Nat) (s : Snowflake) (clock : List Int),
      (runIDs k s clock).1.length = k ∨ (runIDs k s clock).2.2 = [] := by
  intro k
  induction k with
  | zero => intro s clock; simp [runIDs]
  | succ k ih =>
    intro s clock
    unfold runIDs
    cases h : s.ID clock with
    | none => simp
    | some o =>
      simp only
      rcases ih o.state o.clock with h1 | h1
      · left; simp [h1]
      · right; exact h1

/-! ## The branches of `ID` -/

theorem ID_nil (s : Snowflake) : s.ID [] = none := rfl

theorem ID_of_not_behind (s : Snowflake) {n : Int} (rest : List Int)
    (h : ¬ n < s.lastTimestamp) : s.ID (n :: rest) = s.produce n rest [] := by
  unfold Snowflake.ID
  simp only [if_neg h]

theorem ID_far_behind (s : Snowflake) {n : Int} (rest : List Int) (h : n < s.lastTimestamp)
    (ho : ¬ wrap64 (s.lastTimestamp - n) ≤ 5) :
    s.ID (n :: rest) = some { id := -1, state := s, clock := rest, slept := [] } := by
  unfold Snowflake.ID
  simp only [if_pos h, if_neg ho]

theorem ID_near_no_reading (s : Snowflake) {n : Int} (h : n < s.lastTimestamp)
    (ho : wrap64 (s.lastTimestamp - n) ≤ 5) : s.ID [n] = none := by
  unfold Snowflake.ID
  simp only [if_pos h, if_pos ho]

theorem ID_near_still_behind (s : Snowflake) {n r : Int} (rest : List Int)
    (h : n < s.lastTimestamp) (ho : wrap64 (s.lastTimestamp - n) ≤ 5)
    (hr : r < s.lastTimestamp) :
    s.ID (n :: r :: rest) =
      some
        { id := -1
          state := s
          clock := rest
          slept := [sleepDuration (wrap64 (s.lastTimestamp - n))] } := by
  unfold Snowflake.ID
  simp only [if_pos h, if_pos ho, if_pos hr]

theorem ID_near_caught_up (s : Snowflake) {n r : Int} (rest : List Int)
    (h : n < s.lastTimestamp) (ho : wrap64 (s.lastTimestamp - n) ≤ 5)
    (hr : ¬ r < s.lastTimestamp) :
    s.ID (n :: r :: rest) =
      s.produce r rest [sleepDuration (wrap64 (s.lastTimestamp - n))] := by
  unfold Snowflake.ID
  simp only [if_pos h, if_pos ho, if_neg hr]

theorem waitNext_isSome (last : Int) :
    ∀ (clock : List Int) (now : Int), (∃ x ∈ now :: clock, last < x) →
      ∃ r, waitNext last now clock = some r := by
  intro clock
  induction clock with
  | nil =>
    intro now h
    obtain ⟨x, hx, hlt⟩ := h
    simp only [List.mem_singleton] at hx
    subst hx
    exact ⟨(x, []), by unfold waitNext; rw [if_neg (by omega)]⟩
  | cons y rest ih =>
    intro now h
    unfold waitNext
    by_cases hn : now ≤ last
    · rw [if_pos hn]
      apply ih
      obtain ⟨x, hx, hlt⟩ := h
      rcases List.mem_cons.1 hx with rfl | hx
      · omega
      · exact ⟨x, hx, hlt⟩
    · rw [if_neg hn]
      exact ⟨_, rfl⟩

theorem waitNext_none (last : Int) :
    ∀ (clock : List Int) (now : Int), (∀ x ∈ now :: clock, x ≤ last) →
      waitNext last now clock = none := by
  intro clock
  induction clock with
  | nil =>
    intro now h
    unfold waitNext
    rw [if_pos (h now (by simp))]
  | cons y rest ih =>
    intro now h
    unfold waitNext
    rw [if_pos (h now (by simp))]
    exact ih y (fun x hx => h x (by simp [hx]))

/-- The part of `ID` after the backward-clock test returns as soon as the busy
loop is not entered or the clock has a reading above the last timestamp. -/
theorem produce_returns (s : Snowflake) (now : Int) (clock slept : List Int)
    (h : now ≠ s.lastTimestamp ∨
      Int.land (wrap64 (s.sequence + 1)) s.maxSequence ≠ 0 ∨
      ∃ x ∈ clock, s.lastTimestamp < x) :
    ∃ o, s.produce now clock slept = some o := by
  unfold Snowflake.produce
  by_cases h1 : now = s.lastTimestamp
  · rw [if_pos h1]
    simp only
    by_cases h2 : Int.land (wrap64 (s.sequence + 1)) s.maxSequence = 0
    · rw [if_pos h2]
      have h3 : ∃ x ∈ clock, s.lastTimestamp < x := by
        rcases h with h | h | h
        · exact absurd h1 h
        · exact absurd h2 h
        · exact h
      obtain ⟨x, hx, hlt⟩ := h3
      obtain ⟨r, hr⟩ := waitNext_isSome s.lastTimestamp clock now ⟨x, by simp [hx], hlt⟩
      rw [hr]
      exact ⟨_, rfl⟩
    · rw [if_neg h2]
      exact ⟨_, rfl⟩
  · rw [if_neg h1]
    exact ⟨_, rfl⟩

theorem produce_returns_of_inv {s : Snowflake} (hs : s.Inv) (now : Int)
    (clock slept : List Int)
    (h : s.sequence < 4095 ∨ ∃ x ∈ now :: clock, s.lastTimestamp < x) :
    ∃ o, s.produce now clock slept = some o := by
  obtain ⟨⟨-, -, -, c4, -, -, -, -⟩, q0, q1, -, -⟩ := hs
  apply produce_returns
  rcases h with h | ⟨x, hx, hlt⟩
  · right; left
    rw [c4, land_succ q0 q1]
    omega
  · rcases List.mem_cons.1 hx with rfl | hx
    · left; omega
    · right; right; exact ⟨x, hx, hlt⟩

/-- What a returned `produce` gives on in-range readings: the packed identifier
of the new state, which is not negative. -/
theorem produce_packed {s : Snowflake} (hs : s.Inv) {now : Int} {clock slept : List Int}
    {o : Outcome} (h0 : 0 ≤ now) (h1 : now < 2 ^ 41) (hL : s.lastTimestamp ≤ now)
    (hc : InRange clock) (h : s.produce now clock slept = some o) :
    o.id = o.state.build ∧ 0 ≤ o.id ∧ o.id ≠ -1 ∧ o.slept = slept := by
  obtain ⟨i1, -, i3, -, i5, i6, -⟩ := produce_step hs h0 h1 hL hc h
  have := key_nonneg i1 i5
  refine ⟨by rw [i3, build_eq_key i1 i5], by omega, by omega, i6⟩

/-! ## The three cases of `produce` -/

theorem waitNext_skip (last : Int) :
    ∀ (pre : List Int) (now r : Int) (post : List Int), now ≤ last → (∀ x ∈ pre, x ≤ last) →
      last < r → waitNext last now (pre ++ r :: post) = some (r, post) := by
  intro pre
  induction pre with
  | nil =>
    intro now r post h1 _ h3
    cases post with
    | nil =>
      simp only [List.nil_append]
      unfold waitNext
      rw [if_pos h1]
      unfold waitNext
      rw [if_neg (by omega)]
    | cons y post =>
      simp only [List.nil_append]
      unfold waitNext
      rw [if_pos h1]
      unfold waitNext
      rw [if_neg (by omega)]
  | cons y pre ih =>
    intro now r post h1 h2 h3
    simp only [List.cons_append]
    unfold waitNext
    rw [if_pos h1]
    exact ih y r post (h2 y (by simp)) (fun x hx => h2 x (by simp [hx])) h3

/-- New millisecond: the sequence restarts at `0`. -/
theorem produce_new_ms (s : Snowflake) {now : Int} (clock slept : List Int)
    (h : now ≠ s.lastTimestamp) :
    s.produce now clock slept =
      some
        { id := ({ s with sequence := 0, lastTimestamp := now } : Snowflake).build
          state := { s with sequence := 0, lastTimestamp := now }
          clock := clock
          slept := slept } := by
  unfold Snowflake.produce
  rw [if_neg h]

/-- Same millisecond, sequence not exhausted: the sequence advances by one. -/
theorem produce_same_ms {s : Snowflake} (hs : s.Inv) (clock slept : List Int)
    (hq : s.sequence < 4095) :
    s.produce s.lastTimestamp clock slept =
      some
        { id := ({ s with sequence := s.sequence + 1 } : Snowflake).build
          state := { s with sequence := s.sequence + 1 }
          clock := clock
          slept := slept } := by
  obtain ⟨⟨-, -, -, c4, -, -, -, -⟩, q0, q1, -, -⟩ := hs
  have hl : Int.land (wrap64 (s.sequence + 1)) s.maxSequence = s.sequence + 1 := by
    rw [c4, land_succ q0 q1]; omega
  unfold Snowflake.produce
  rw [if_pos rfl]
  simp only [hl]
  rw [if_neg (by omega)]

/-- Same millisecond, sequence exhausted: the call waits for the first reading
above the last timestamp and restarts the sequence there. -/
theorem produce_rollover {s : Snowflake} (hm : s.maxSequence = 4095)
    (hq : s.sequence = 4095) (pre : List Int) (r : Int) (post slept : List Int)
    (hpre : ∀ x ∈ pre, x ≤ s.lastTimestamp) (hr : s.lastTimestamp < r) :
    s.produce s.lastTimestamp (pre ++ r :: post) slept =
      some
        { id := ({ s with sequence := 0, lastTimestamp := r } : Snowflake).build
          state := { s with sequence := 0, lastTimestamp := r }
          clock := post
          slept := slept } := by
  have hl : Int.land (wrap64 (s.sequence + 1)) s.maxSequence = 0 := by
    rw [hm, hq]; decide
  unfold Snowflake.produce
  rw [if_pos rfl]
  simp only [hl]
  rw [if_pos trivial, waitNext_skip s.lastTimestamp pre s.lastTimestamp r post (le_refl _) hpre hr]

/-- Same millisecond, sequence exhausted, no reading above the last timestamp:
the call has not returned. -/
theorem produce_rollover_waits {s : Snowflake} (hm : s.maxSequence = 4095)
    (hq : s.sequence = 4095) (clock slept : List Int)
    (hclock : ∀ x ∈ clock, x ≤ s.lastTimestamp) :
    s.produce s.lastTimestamp clock slept = none := by
  have hl : Int.land (wrap64 (s.sequence + 1)) s.maxSequence = 0 := by
    rw [hm, hq]; decide
  unfold Snowflake.produce
  rw [if_pos rfl]
  simp only [hl]
  rw [if_pos trivial, waitNext_none s.lastTimestamp clock s.lastTimestamp
    (fun x hx => by
      rcases List.mem_cons.1 hx with rfl | hx
      · exact le_refl _
      · exact hclock x hx)]

theorem range_map_shift (a : Int) (n : Nat) :
    a :: (List.range n).map (fun (i : Nat) => a + 1 + (i : Int)) =
      (List.range (n + 1)).map (fun (i : Nat) => a + (i : Int)) := by
  rw [List.range_succ_eq_map, List.map_cons, List.map_map]
  simp only [Nat.cast_zero, add_zero, List.cons.injEq, true_and]
  apply List.map_congr_left
  intro i _
  simp only [Function.comp, Nat.cast_succ]
  ring

theorem runIDs_succ_of_ID {k : Nat} {s : Snowflake} {clock : List Int} {o : Outcome}
    (h : s.ID clock = some o) :
    runIDs (k + 1) s clock =
      (o.id :: (runIDs k o.state o.clock).1, (runIDs k o.state o.clock).2.1,
        (runIDs k o.state o.clock).2.2) := by
  rw [runIDs, h]

/-- A run of `j` calls that all read the last timestamp, while the sequence has
room: the identifiers are the `j` successors of the key of the state. -/
theorem runIDs_same_ms :
    ∀ (j m : Nat) (s : Snowflake) (clock : List Int) (q : Int), s.Inv →
      0 ≤ s.lastTimestamp → q = s.sequence + j → q ≤ 4095 →
      runIDs (j + m) s (List.replicate j s.lastTimestamp ++ clock) =
        ((List.range j).map (fun (i : Nat) => s.key + 1 + (i : Int)) ++
            (runIDs m { s with sequence := q } clock).1,
          (runIDs m { s with sequence := q } clock).2.1,
          (runIDs m { s with sequence := q } clock).2.2) := by
  intro j
  induction j with
  | zero =>
    intro m s clock q _ _ hq _
    have : q = s.sequence := by simpa using hq
    subst this
    simp
  | succ j ih =>
    intro m s clock q hs h0 hq hq1
    have hlt : s.sequence < 4095 := by push_cast at hq; omega
    have hID : s.ID (s.lastTimestamp :: (List.replicate j s.lastTimestamp ++ clock)) = _ :=
      (ID_of_not_behind s _ (lt_irrefl _)).trans (produce_same_ms hs _ [] hlt)
    have e1 : j + 1 + m = (j + m) + 1 := by omega
    rw [e1, List.replicate_succ, List.cons_append, runIDs_succ_of_ID hID]
    simp only
    obtain ⟨hc, q0, q1, l0, l1⟩ := hs
    have hs1 : ({ s with sequence := s.sequence + 1 } : Snowflake).Inv :=
      ⟨hc, by simp; omega, by simp; omega, l0, l1⟩
    have := ih m { s with sequence := s.sequence + 1 } clock q hs1 h0
      (by push_cast at hq; simp only; omega) hq1
    simp only at this
    rw [this]
    have hk : ({ s with sequence := s.sequence + 1 } : Snowflake).key = s.key + 1 := by
      simp only [Snowflake.key]; ring
    rw [build_eq_key hs1 h0, hk, List.range_succ_eq_map, List.map_cons, List.map_map]
    refine Prod.ext ?_ rfl
    simp only [List.cons_append, Nat.cast_zero, add_zero, List.cons.injEq, true_and]
    congr 1
    apply List.map_congr_left
    intro i _
    simp only [Function.comp, Nat.cast_succ]
    ring

/-! ## Identifiers with sequence `0` -/

theorem testBit_zero_of_even (y : Int) : Int.testBit (2 * y) 0 = false := by
  have := Int.testBit_bit_zero false y
  rw [Int.bit_val] at this
  simpa using this

theorem shl64_even (x : Int) (k : Nat) : ∃ y, shl64 x (k + 1) = 2 * y := by
  refine ⟨wrap64 (x * 2 ^ (k + 1)) / 2, ?_⟩
  unfold shl64 wrap64
  have h : x * 2 ^ (k + 1) = 2 * (x * 2 ^ k) := by ring
  rw [h]
  generalize x * 2 ^ k = z
  omega

/-- An identifier packed with sequence `0` and positive shifts has its lowest
bit clear, so it is not the sentinel `-1`, whatever the timestamp. -/
theorem build_ne_sentinel_of_sequence_zero (s : Snowflake) (hq : s.sequence = 0)
    (h1 : s.timestampShift = 22) (h2 : s.nodeShift = 12) : s.build ≠ -1 := by
  intro h
  have hb : Int.testBit s.build 0 = false := by
    unfold Snowflake.build
    rw [hq, h1, h2, Int.testBit_lor, Int.testBit_lor]
    obtain ⟨y1, e1⟩ := shl64_even s.lastTimestamp 21
    obtain ⟨y2, e2⟩ := shl64_even s.nodeID 11
    rw [e1, e2, testBit_zero_of_even, testBit_zero_of_even]
    rfl
  rw [h] at hb
  exact absurd hb (by decide)

/-! ## Uniqueness and monotonicity -/

/-- C1 (uniqueness): for a generator returned by `NewSnowflake` and clock
readings that all lie in `[0, 2^41)`, the identifiers other than the sentinel
`-1` that any number `k` of successive calls of `ID` return are pairwise
distinct, whatever the order of the readings (calls that fail on a backward
clock included). -/
theorem C1_uniqueness (zoneOffset now : Int) (option : SnowflakeOption) (s : Snowflake)
    (clock : List Int) (k : Nat)
    (hnew : (NewSnowflake zoneOffset now option).snowflake = some s)
    (hclock : InRange clock) :
    ((runIDs k s clock).1.filter (fun i => decide (i ≠ -1))).Nodup := by
  have h := (runIDs_increasing k s clock (NewSnowflake_some hnew).1 hclock).2
  exact h.imp (fun hab => ne_of_lt hab)

theorem C1_uniqueness_witness :
    (NewSnowflake 0 0 ⟨0, 1⟩).snowflake = some (mkSnowflake 1) ∧
      InRange [5, 5, 4, 3, 9, 2, 5, 9] ∧
      ((runIDs 5 (mkSnowflake 1) [5, 5, 4, 3, 9, 2, 5, 9]).1.filter
        (fun i => decide (i ≠ -1))).Nodup :=
  ⟨by decide, by decide,
    C1_uniqueness 0 0 ⟨0, 1⟩ (mkSnowflake 1) [5, 5, 4, 3, 9, 2, 5, 9] 5 (by decide) (by decide)⟩

/-- C2 (monotonicity): for a generator returned by `NewSnowflake`, if the clock
readings all lie in `[0, 2^41)` and never go backward, then in any number `k` of
successive calls of `ID` no call returns the sentinel `-1` and every identifier
is strictly greater than the one returned by the call before it.  A run returns
fewer than `k` identifiers only when the readings are used up. -/
theorem C2_monotonicity (zoneOffset now : Int) (option : SnowflakeOption) (s : Snowflake)
    (clock : List Int) (k : Nat)
    (hnew : (NewSnowflake zoneOffset now option).snowflake = some s)
    (hclock : InRange clock) (hmono : clock.Pairwise (· ≤ ·)) :
    (∀ x ∈ (runIDs k s clock).1, x ≠ -1) ∧ (runIDs k s clock).1.Chain' (· < ·) ∧
      ((runIDs k s clock).1.length = k ∨ (runIDs k s clock).2.2 = []) := by
  obtain ⟨hinv, -, -, hl⟩ := NewSnowflake_some hnew
  have h1 := runIDs_no_sentinel k s clock hinv hclock hmono
    (fun r hr => by have := (hclock r hr).1; omega)
  have h2 := (runIDs_increasing k s clock hinv hclock).2
  rw [List.filter_eq_self.2 (fun x hx => by simpa using h1 x hx)] at h2
  exact ⟨h1, h2.chain', runIDs_length_or_exhausted k s clock⟩

theorem C2_monotonicity_witness :
    (NewSnowflake 0 0 ⟨0, 1⟩).snowflake = some (mkSnowflake 1) ∧
      InRange [5, 5, 5, 7, 7, 9] ∧ [5, 5, 5, 7, 7, (9 : Int)].Pairwise (· ≤ ·) ∧
      (∀ x ∈ (runIDs 6 (mkSnowflake 1) [5, 5, 5, 7, 7, 9]).1, x ≠ -1) ∧
      (runIDs 6 (mkSnowflake 1) [5, 5, 5, 7, 7, 9]).1.Chain' (· < ·) ∧
      ((runIDs 6 (mkSnowflake 1) [5, 5, 5, 7, 7, 9]).1.length = 6 ∨
        (runIDs 6 (mkSnowflake 1) [5, 5, 5, 7, 7, 9]).2.2 = []) :=
  ⟨by decide, by decide, by decide,
    C2_monotonicity 0 0 ⟨0, 1⟩ (mkSnowflake 1) [5, 5, 5, 7, 7, 9] 6 (by decide) (by decide)
      (by decide)⟩

/-! ## Field round-trip -/

theorem land_mask_of_nonneg {x : Int} (hx : 0 ≤ x) (k : Nat) :
    Int.land x (2 ^ k - 1) = x % 2 ^ k := by
  obtain ⟨a, rfl⟩ := Int.eq_ofNat_of_zero_le hx
  have h2 : ((2 : Int) ^ k - 1) = ((2 ^ k - 1 : Nat) : Int) := by
    have : 1 ≤ 2 ^ k := Nat.one_le_two_pow
    push_cast [Nat.cast_sub this]
    rfl
  rw [h2, land_natCast, Nat.and_pow_two_sub_one_eq_mod]
  push_cast
  rfl

/-- The fields of a packed identifier, read back with shifts and masks. -/
theorem build_fields (u : Snowflake) (huc : u.Consts)
    (hut : 0 ≤ u.lastTimestamp ∧ u.lastTimestamp < 2 ^ 41)
    (huq : 0 ≤ u.sequence ∧ u.sequence ≤ 4095) :
    u.build = u.lastTimestamp * 2 ^ 22 + u.nodeID * 2 ^ 12 + u.sequence ∧
      u.build >>> (22 : Nat) = u.lastTimestamp ∧
      Int.land (u.build >>> (12 : Nat)) 1023 = u.nodeID ∧
      Int.land u.build 4095 = u.sequence := by
  have hb : u.build = u.lastTimestamp * 2 ^ 22 + u.nodeID * 2 ^ 12 + u.sequence :=
    build_eq_key ⟨huc, huq.1, huq.2, by omega, hut.2⟩ hut.1
  obtain ⟨-, -, -, -, -, -, n0, n1⟩ := huc
  have hnn : 0 ≤ u.build := by rw [hb]; omega
  have e1 : u.build >>> (22 : Nat) = u.lastTimestamp := by
    rw [Int.shiftRight_eq_div_pow, hb]
    norm_num
    omega
  have e2 : u.build >>> (12 : Nat) = u.lastTimestamp * 2 ^ 10 + u.nodeID := by
    rw [Int.shiftRight_eq_div_pow, hb]
    norm_num
    omega
  refine ⟨hb, e1, ?_, ?_⟩
  · have := land_mask_of_nonneg (x := u.build >>> (12 : Nat)) (by rw [e2]; omega) 10
    norm_num at this
    rw [this, e2]
    omega
  · have := land_mask_of_nonneg hnn 12
    norm_num at this
    rw [this, hb]
    omega

/-- C3 (field round-trip): for a state with the constants of `NewSnowflake`, a
timestamp `t` in `[0, 2^41)`, a node `n` in `[0, 1023]` and a sequence `q` in
`[0, 4095]`, the identifier `id = build()` is `t * 2^22 + n * 2^12 + q`; it
satisfies `id >> 22 = t`, `(id >> 12) & 1023 = n` and `id & 4095 = q`; packing
the three extracted fields again gives `id`; and two such states with the same
identifier have the same three fields. -/
theorem C3_field_round_trip (s : Snowflake) (hc : s.Consts)
    (ht : 0 ≤ s.lastTimestamp ∧ s.lastTimestamp < 2 ^ 41)
    (hq : 0 ≤ s.sequence ∧ s.sequence ≤ 4095) :
    s.build = s.lastTimestamp * 2 ^ 22 + s.nodeID * 2 ^ 12 + s.sequence ∧
      s.build >>> (22 : Nat) = s.lastTimestamp ∧
      Int.land (s.build >>> (12 : Nat)) 1023 = s.nodeID ∧
      Int.land s.build 4095 = s.sequence ∧
      Int.lor (Int.lor (shl64 (s.build >>> (22 : Nat)) 22) (shl64 (Int.land (s.build >>> (12 : Nat)) 1023) 12))
        (Int.land s.build 4095) = s.build ∧
      ∀ s2 : Snowflake, s2.Consts → 0 ≤ s2.lastTimestamp ∧ s2.lastTimestamp < 2 ^ 41 →
        0 ≤ s2.sequence ∧ s2.sequence ≤ 4095 → s2.build = s.build →
        s2.lastTimestamp = s.lastTimestamp ∧ s2.nodeID = s.nodeID ∧
          s2.sequence = s.sequence := by
  obtain ⟨hb, e1, e2, e3⟩ := build_fields s hc ht hq
  refine ⟨hb, e1, e2, e3, ?_, ?_⟩
  · rw [e1, e2, e3]
    obtain ⟨-, -, -, -, c5, c6, -, -⟩ := hc
    unfold Snowflake.build
    rw [c5, c6]
  · intro s2 h2c h2t h2q heq
    obtain ⟨-, f1, f2, f3⟩ := build_fields s2 h2c h2t h2q
    rw [heq] at f1 f2 f3
    exact ⟨f1.symm.trans e1, f2.symm.trans e2, f3.symm.trans e3⟩

theorem C3_field_round_trip_witness :
    (mkSnowflake 1).Consts ∧
      (0 ≤ ({ mkSnowflake 1 with lastTimestamp := 5, sequence := 7 } : Snowflake).lastTimestamp ∧
        ({ mkSnowflake 1 with lastTimestamp := 5, sequence := 7 } : Snowflake).lastTimestamp
          < 2 ^ 41) ∧
      (0 ≤ ({ mkSnowflake 1 with lastTimestamp := 5, sequence := 7 } : Snowflake).sequence ∧
        ({ mkSnowflake 1 with lastTimestamp := 5, sequence := 7 } : Snowflake).sequence
          ≤ 4095) ∧
      ({ mkSnowflake 1 with lastTimestamp := 5, sequence := 7 } : Snowflake).build
        >>> (22 : Nat) = 5 :=
  ⟨by decide, by decide, by decide,
    (C3_field_round_trip { mkSnowflake 1 with lastTimestamp := 5, sequence := 7 }
      (by decide) (by decide) (by decide)).2.1⟩

/-! ## Construction: node boundary and the option record -/

/-- C4 (node boundary): `NewSnowflake` returns an error exactly when
`NodeID < 0` or `NodeID > 1023`, and then the generator is nil; for every
`NodeID` in `[0, 1023]` it returns no error and a generator whose `nodeID` is
the supplied value.  `NodeID = -1` and `NodeID = 1024` fail; `NodeID = 0`, `1`
and `1023` succeed. -/
theorem C4_node_boundary (zoneOffset now : Int) (option : SnowflakeOption) :
    ((NewSnowflake zoneOffset now option).err ≠ none ↔
        (option.NodeID < 0 ∨ option.NodeID > 1023)) ∧
      ((NewSnowflake zoneOffset now option).err ≠ none →
        (NewSnowflake zoneOffset now option).snowflake = none) ∧
      ((0 ≤ option.NodeID ∧ option.NodeID ≤ 1023) →
        (NewSnowflake zoneOffset now option).err = none ∧
          ∃ s, (NewSnowflake zoneOffset now option).snowflake = some s ∧
            s.nodeID = option.NodeID) ∧
      (NewSnowflake zoneOffset now { option with NodeID := -1 }).err ≠ none ∧
      (NewSnowflake zoneOffset now { option with NodeID := 1024 }).err ≠ none ∧
      (NewSnowflake zoneOffset now { option with NodeID := 0 }).err = none ∧
      (NewSnowflake zoneOffset now { option with NodeID := 1 }).err = none ∧
      (NewSnowflake zoneOffset now { option with NodeID := 1023 }).err = none := by
  have main : ∀ o : SnowflakeOption,
      ((NewSnowflake zoneOffset now o).err ≠ none ↔ (o.NodeID < 0 ∨ o.NodeID > 1023)) ∧
      ((NewSnowflake zoneOffset now o).err ≠ none →
        (NewSnowflake zoneOffset now o).snowflake = none) ∧
      ((0 ≤ o.NodeID ∧ o.NodeID ≤ 1023) →
        (NewSnowflake zoneOffset now o).err = none ∧
          ∃ s, (NewSnowflake zoneOffset now o).snowflake = some s ∧ s.nodeID = o.NodeID) := by
    intro o
    rcases NewSnowflake_cases zoneOffset now o with ⟨h1, h2, h3⟩ | ⟨h1, h2, s, h3, -, h4, -⟩
    · refine ⟨⟨fun _ => h1, fun _ => by rw [h3]; simp⟩, fun _ => h2, fun h => ?_⟩
      omega
    · refine ⟨⟨fun h => absurd h2 h, fun h => ?_⟩, fun h => absurd h2 h,
        fun _ => ⟨h2, s, h3, h4⟩⟩
      omega
  obtain ⟨m1, m2, m3⟩ := main option
  refine ⟨m1, m2, m3, ?_, ?_, ?_, ?_, ?_⟩
  · exact (main _).1.2 (Or.inl (by show (-1 : Int) < 0; decide))
  · exact (main _).1.2 (Or.inr (by show (1024 : Int) > 1023; decide))
  · exact ((main { option with NodeID := 0 }).2.2
      ⟨by show (0 : Int) ≤ 0; decide, by show (0 : Int) ≤ 1023; decide⟩).1
  · exact ((main { option with NodeID := 1 }).2.2
      ⟨by show (0 : Int) ≤ 1; decide, by show (1 : Int) ≤ 1023; decide⟩).1
  · exact ((main { option with NodeID := 1023 }).2.2
      ⟨by show (0 : Int) ≤ 1023; decide, by show (1023 : Int) ≤ 1023; decide⟩).1

/-- C9, as stated, fails: called with `Epoch = 0` the function writes the
built-in epoch into the caller's option record. -/
theorem C9_option_counterexample :
    (NewSnowflake 0 0 { Epoch := 0, NodeID := 1 }).option.Epoch = 1725981420000 ∧
      (NewSnowflake 0 0 { Epoch := 0, NodeID := 1 }).option ≠ { Epoch := 0, NodeID := 1 } := by
  decide

/-- C9 (amended): after `NewSnowflake` the caller's option record has the same
`NodeID` as before; its `Epoch` is unchanged when it was not `0`; and an
`Epoch` of `0` has been overwritten with the built-in default epoch in
milliseconds, whether or not the construction succeeds. -/
theorem C9_option_frame (zoneOffset now : Int) (option : SnowflakeOption) :
    (NewSnowflake zoneOffset now option).option.NodeID = option.NodeID ∧
      (option.Epoch ≠ 0 → (NewSnowflake zoneOffset now option).option = option) ∧
      (option.Epoch = 0 →
        (NewSnowflake zoneOffset now option).option.Epoch = defaultEpoch zoneOffset) := by
  refine ⟨NewSnowflake_nodeID _ _ _, fun h => ?_, fun h => ?_⟩
  · rw [NewSnowflake_option, if_neg h]
  · rw [NewSnowflake_option, if_pos h]

/-! ## Backward clock -/

/-- C5 (backward-clock policy): for a generator state with last timestamp `L`
(sequence in range, constants of `NewSnowflake`) and clock readings in
`[0, 2^41)`, a call of `ID` whose first reading is `n` returns the sentinel `-1`
exactly when `n < L` and either `L - n > 5`, or `L - n ≤ 5` and the reading `r`
taken after the sleep is still below `L`.  With `L - n > 5` it returns `-1` at
once; with `L - n ≤ 5` and `r < L` it returns `-1` after the sleep; with
`L - n ≤ 5` and `r ≥ L` it returns the packed identifier of the new state, not
`-1` (it returns as soon as the sequence does not wrap or a reading above `L`
is available); with `n ≥ L` it never returns `-1`. -/
theorem C5_backward_clock (s : Snowflake) (hs : s.Inv) (n : Int) (rest : List Int)
    (hclock : InRange (n :: rest)) :
    ((∃ o, s.ID (n :: rest) = some o ∧ o.id = -1) ↔
        (n < s.lastTimestamp ∧
          (s.lastTimestamp - n > 5 ∨
            (s.lastTimestamp - n ≤ 5 ∧
              ∃ r rest2, rest = r :: rest2 ∧ r < s.lastTimestamp)))) ∧
      (n < s.lastTimestamp → s.lastTimestamp - n > 5 →
        s.ID (n :: rest) = some { id := -1, state := s, clock := rest, slept := [] }) ∧
      (∀ r rest2, rest = r :: rest2 → n < s.lastTimestamp → s.lastTimestamp - n ≤ 5 →
        r < s.lastTimestamp →
        s.ID (n :: rest) = some { id := -1, state := s, clock := rest2,
                                  slept := [sleepDuration (s.lastTimestamp - n)] }) ∧
      (∀ r rest2, rest = r :: rest2 → n < s.lastTimestamp → s.lastTimestamp - n ≤ 5 →
        s.lastTimestamp ≤ r →
        (∀ o, s.ID (n :: rest) = some o → o.id = o.state.build ∧ 0 ≤ o.id ∧ o.id ≠ -1) ∧
          ((s.sequence < 4095 ∨ ∃ x ∈ rest, s.lastTimestamp < x) →
            ∃ o, s.ID (n :: rest) = some o)) ∧
      (s.lastTimestamp ≤ n →
        (∀ o, s.ID (n :: rest) = some o → o.id = o.state.build ∧ 0 ≤ o.id ∧ o.id ≠ -1) ∧
          ((s.sequence < 4095 ∨ ∃ x ∈ n :: rest, s.lastTimestamp < x) →
            ∃ o, s.ID (n :: rest) = some o)) := by
  have hn := hclock n (by simp)
  have hrest : InRange rest := fun x hx => hclock x (by simp [hx])
  have hL := hs.2.2.2
  have hw : wrap64 (s.lastTimestamp - n) = s.lastTimestamp - n :=
    wrap64_of_isInt64 (by unfold IsInt64; omega)
  -- the branch with a large offset
  have far : n < s.lastTimestamp → s.lastTimestamp - n > 5 →
      s.ID (n :: rest) = some { id := -1, state := s, clock := rest, slept := [] } :=
    fun h1 h2 => ID_far_behind s rest h1 (by rw [hw]; omega)
  -- the branch with a small offset and a resample that is still behind
  have near : ∀ r rest2, rest = r :: rest2 → n < s.lastTimestamp → s.lastTimestamp - n ≤ 5 →
      r < s.lastTimestamp →
      s.ID (n :: rest) = some { id := -1, state := s, clock := rest2,
                                slept := [sleepDuration (s.lastTimestamp - n)] } := by
    intro r rest2 e h1 h2 h3
    subst e
    rw [ID_near_still_behind s rest2 h1 (by rw [hw]; exact h2) h3, hw]
  -- the branch with a small offset and a resample that caught up
  have caught : ∀ r rest2, rest = r :: rest2 → n < s.lastTimestamp →
      s.lastTimestamp - n ≤ 5 → s.lastTimestamp ≤ r →
      (∀ o, s.ID (n :: rest) = some o → o.id = o.state.build ∧ 0 ≤ o.id ∧ o.id ≠ -1) ∧
        ((s.sequence < 4095 ∨ ∃ x ∈ rest, s.lastTimestamp < x) →
          ∃ o, s.ID (n :: rest) = some o) := by
    intro r rest2 e h1 h2 h3
    subst e
    have hr := hrest r (by simp)
    have hrest2 : InRange rest2 := fun x hx => hrest x (by simp [hx])
    rw [ID_near_caught_up s rest2 h1 (by rw [hw]; exact h2) (by omega)]
    refine ⟨fun o ho => ?_, fun h => produce_returns_of_inv hs r rest2 _ h⟩
    obtain ⟨p1, p2, p3, -⟩ := produce_packed hs hr.1 hr.2 h3 hrest2 ho
    exact ⟨p1, p2, p3⟩
  -- no backward clock
  have fwd : s.lastTimestamp ≤ n →
      (∀ o, s.ID (n :: rest) = some o → o.id = o.state.build ∧ 0 ≤ o.id ∧ o.id ≠ -1) ∧
        ((s.sequence < 4095 ∨ ∃ x ∈ n :: rest, s.lastTimestamp < x) →
          ∃ o, s.ID (n :: rest) = some o) := by
    intro h1
    rw [ID_of_not_behind s rest (by omega)]
    refine ⟨fun o ho => ?_, fun h => produce_returns_of_inv hs n rest _ h⟩
    obtain ⟨p1, p2, p3, -⟩ := produce_packed hs hn.1 hn.2 h1 hrest ho
    exact ⟨p1, p2, p3⟩
  refine ⟨⟨?_, ?_⟩, far, near, caught, fwd⟩
  · rintro ⟨o, ho, hid⟩
    by_cases hb : n < s.lastTimestamp
    · refine ⟨hb, ?_⟩
      by_cases hoff : s.lastTimestamp - n > 5
      · exact Or.inl hoff
      · refine Or.inr ⟨by omega, ?_⟩
        cases rest with
        | nil =>
          rw [ID_near_no_reading s hb (by rw [hw]; omega)] at ho
          exact absurd ho (by simp)
        | cons r rest2 =>
          refine ⟨r, rest2, rfl, ?_⟩
          by_contra hr
          exact ((caught r rest2 rfl hb (by omega) (by omega)).1 o ho).2.2 hid
    · exact absurd hid ((fwd (by omega)).1 o ho).2.2
  · rintro ⟨hb, hoff | ⟨hoff, r, rest2, e, hr⟩⟩
    · exact ⟨_, far hb hoff, rfl⟩
    · exact ⟨_, near r rest2 e hb hoff hr, rfl⟩

theorem C5_backward_clock_witness :
    ({ mkSnowflake 1 with lastTimestamp := 100 } : Snowflake).Inv ∧
      InRange [97, 100] ∧ InRange [92, 100] ∧
      (({ mkSnowflake 1 with lastTimestamp := 100 } : Snowflake).ID [97, 100]).map (·.id) =
        some (100 * 2 ^ 22 + 2 ^ 12 + 1) ∧
      ({ mkSnowflake 1 with lastTimestamp := 100 } : Snowflake).ID [92, 100] =
        some { id := -1, state := { mkSnowflake 1 with lastTimestamp := 100 },
               clock := [100], slept := [] } :=
  ⟨by decide, by decide, by decide, by decide,
    (C5_backward_clock { mkSnowflake 1 with lastTimestamp := 100 } (by decide) 92 [100]
      (by decide)).2.1 (by decide) (by decide)⟩

/-! ## The first call -/

/-- C10, as stated, fails: on the generator that `NewSnowflake` has just
returned, a first clock reading of `-10` (ten milliseconds before the epoch)
makes `ID` return the sentinel `-1`. -/
theorem C10_first_call_counterexample :
    (NewSnowflake 0 0 { Epoch := 0, NodeID := 1 }).snowflake = some (mkSnowflake 1) ∧
      (mkSnowflake 1).ID [-10] =
        some { id := -1, state := mkSnowflake 1, clock := [], slept := [] } := by
  decide

/-- C10 (amended): on a generator that `NewSnowflake` has just returned, the
first call of `ID` does not return the sentinel `-1` whenever its clock reading
`n` is at or after the epoch (`n ≥ 0`, any `int64`): it returns after that one
reading, with sequence `0` and last timestamp `n`, an identifier that is not
`-1`, equal to `n * 2^22 + nodeID * 2^12` when `n < 2^41`.  A first reading
more than `6` ms before the epoch (`n < -6`) is taken for a backward clock
against the initial last timestamp `-1` and yields `-1`. -/
theorem C10_first_call (zoneOffset now : Int) (option : SnowflakeOption) (s : Snowflake)
    (n : Int) (rest : List Int)
    (hnew : (NewSnowflake zoneOffset now option).snowflake = some s) (hn : IsInt64 n) :
    (0 ≤ n →
      ∃ o, s.ID (n :: rest) = some o ∧ o.id ≠ -1 ∧ o.id = o.state.build ∧
        o.state = { s with sequence := 0, lastTimestamp := n } ∧ o.clock = rest ∧
        o.slept = [] ∧ (n < 2 ^ 41 → o.id = n * 2 ^ 22 + s.nodeID * 2 ^ 12)) ∧
      (n < -6 →
        s.ID (n :: rest) = some { id := -1, state := s, clock := rest, slept := [] }) := by
  obtain ⟨hinv, -, hq, hl⟩ := NewSnowflake_some hnew
  obtain ⟨hc, q0, q1, -, -⟩ := hinv
  have hc0 := hc
  obtain ⟨-, -, -, -, c5, c6, -, -⟩ := hc0
  refine ⟨fun h0 => ?_, fun hneg => ?_⟩
  · have hID : s.ID (n :: rest) = _ :=
      (ID_of_not_behind s rest (by omega)).trans (produce_new_ms s rest [] (by omega))
    refine ⟨_, hID, ?_, rfl, rfl, rfl, rfl, fun h1 => ?_⟩
    · exact build_ne_sentinel_of_sequence_zero _ rfl c6 c5
    · have hs1 : ({ s with sequence := 0, lastTimestamp := n } : Snowflake).Inv :=
        ⟨hc, by simp, by simp, by simp; omega, by simp; omega⟩
      show ({ s with sequence := 0, lastTimestamp := n } : Snowflake).build = _
      rw [build_eq_key hs1 h0]
      simp [Snowflake.key]
  · unfold IsInt64 at hn
    have hw : wrap64 (s.lastTimestamp - n) = s.lastTimestamp - n :=
      wrap64_of_isInt64 (by unfold IsInt64; omega)
    exact ID_far_behind s rest (by omega) (by rw [hw]; omega)

theorem C10_first_call_witness :
    (NewSnowflake 0 0 { Epoch := 0, NodeID := 1 }).snowflake = some (mkSnowflake 1) ∧
      IsInt64 3 ∧
      ∃ o, (mkSnowflake 1).ID [3, 4] = some o ∧ o.id ≠ -1 ∧ o.id = o.state.build ∧
        o.state = { mkSnowflake 1 with sequence := 0, lastTimestamp := 3 } ∧ o.clock = [4] ∧
        o.slept = [] ∧ ((3 : Int) < 2 ^ 41 → o.id = 3 * 2 ^ 22 + (mkSnowflake 1).nodeID * 2 ^ 12) :=
  ⟨by decide, by decide,
    (C10_first_call 0 0 { Epoch := 0, NodeID := 1 } (mkSnowflake 1) 3 [4] (by decide)
      (by decide)).1 (by decide)⟩

/-! ## Decimal text -/

/-- Reading back the digits that `formatLoop` wrote gives the number, and the
reading goes on with the bytes that were already in the buffer. -/
theorem parseUintLoop_formatLoop :
    ∀ (room u : Nat) (acc : List Nat), u < 10 ^ room → u < 2 ^ 64 →
      parseUintLoop (formatLoop room u acc) 0 = parseUintLoop acc u := by
  intro room
  induction room with
  | zero =>
    intro u acc h _
    have : u = 0 := by simpa using h
    subst this
    rfl
  | succ room ih =>
    intro u acc h h64
    unfold formatLoop
    by_cases hu : u ≥ 10
    · rw [if_pos hu, ih (u / 10) _ (by rw [pow_succ] at h; omega) (by omega)]
      conv_lhs => unfold parseUintLoop
      rw [if_pos (by omega), if_neg (by omega)]
      simp only
      have e1 : u / 10 * 10 % 2 ^ 64 = u / 10 * 10 := Nat.mod_eq_of_lt (by omega)
      have e2 : (u / 10 * 10 + (48 + u % 10 - 48)) % 2 ^ 64 = u :=
        (Nat.mod_eq_of_lt (by omega)).trans (by omega)
      rw [e1, e2, if_neg (by omega)]
    · rw [if_neg hu]
      conv_lhs => unfold parseUintLoop
      rw [if_pos (by omega), if_neg (by omega)]
      simp only
      have e2 : (0 * 10 % 2 ^ 64 + (48 + u - 48)) % 2 ^ 64 = u := by
        rw [Nat.zero_mul, Nat.zero_mod, Nat.zero_add]
        exact (Nat.mod_eq_of_lt (by omega)).trans (by omega)
      rw [e2, if_neg (by omega)]

/-- The first byte that `formatLoop` writes is a digit. -/
theorem formatLoop_head :
    ∀ (room u : Nat) (acc : List Nat),
      ∃ c tl, formatLoop (room + 1) u acc = c :: tl ∧ 48 ≤ c ∧ c ≤ 57 := by
  intro room
  induction room with
  | zero =>
    intro u acc
    unfold formatLoop
    by_cases hu : u ≥ 10
    · rw [if_pos hu]
      exact ⟨48 + u % 10, acc, rfl, by omega, by omega⟩
    · rw [if_neg hu]
      exact ⟨48 + u, acc, rfl, by omega, by omega⟩
  | succ room ih =>
    intro u acc
    unfold formatLoop
    by_cases hu : u ≥ 10
    · rw [if_pos hu]
      exact ih (u / 10) _
    · rw [if_neg hu]
      exact ⟨48 + u, acc, rfl, by omega, by omega⟩

theorem ParseUint_formatLoop (u : Nat) (h : u < 2 ^ 64) :
    ParseUint (formatLoop 65 u []) = (u, none) := by
  obtain ⟨c, tl, e, -, -⟩ := formatLoop_head 64 u []
  have e : formatLoop 65 u [] = c :: tl := e
  have h2 := parseUintLoop_formatLoop 65 u [] (by omega) h
  rw [e] at h2 ⊢
  unfold ParseUint
  simp only
  rw [h2]
  rfl

/-- Parsing the decimal text of an `int64` gives the number back. -/
theorem ParseInt_FormatInt (i : Int) (h : IsInt64 i) : ParseInt (FormatInt i) = (i, none) := by
  unfold IsInt64 at h
  unfold FormatInt formatBits
  by_cases hneg : i < 0
  · have hu : (2 ^ 64 - (i % 2 ^ 64).toNat) % 2 ^ 64 = (-i).toNat := by omega
    simp only [hneg, decide_True, if_true, hu]
    have h2 := ParseUint_formatLoop (-i).toNat (by omega)
    unfold ParseInt
    simp only [h2, or_true, if_true, true_and]
    rw [if_neg (by simp), if_neg (by simp), if_neg (by omega)]
    have : wrap64 (-wrap64 ((-i).toNat : Int)) = i := by
      unfold wrap64
      omega
    rw [this]
  · have hu : (i % 2 ^ 64).toNat = i.toNat := by omega
    simp only [hneg, decide_False, Bool.false_eq_true, if_false, hu]
    obtain ⟨c, tl, e, c0, c1⟩ := formatLoop_head 64 i.toNat []
    have e : formatLoop 65 i.toNat [] = c :: tl := e
    have h2 := ParseUint_formatLoop i.toNat (by omega)
    rw [e] at h2 ⊢
    unfold ParseInt
    simp only
    have hc : ¬ (c = 43 ∨ c = 45) := by omega
    have hc2 : ¬ c = 45 := by omega
    rw [if_neg hc, h2]
    simp only [hc2, false_and, if_false, not_false_eq_true, true_and]
    rw [if_neg (by simp), if_neg (by omega)]
    have : wrap64 ((i.toNat : Nat) : Int) = i := by
      unfold wrap64
      omega
    rw [this]

/-- C7 (decimal round-trip): for every `int64` value `id` (negative values, `0`,
the minimum and the maximum included), `ParseString(id.String())` and
`ParseBytes(id.Bytes())` return `id` and no error, and
`ParseInt64(id.Int64()) = id`. -/
theorem C7_decimal_round_trip (id : Int) (h : IsInt64 id) :
    ParseString (SnowflakeID.String id) = (id, none) ∧
      ParseBytes (SnowflakeID.Bytes id) = (id, none) ∧
      ParseInt64 (SnowflakeID.Int64 id) = id :=
  ⟨ParseInt_FormatInt id h, ParseInt_FormatInt id h, rfl⟩

theorem C7_decimal_round_trip_witness :
    IsInt64 (-9223372036854775808) ∧
      ParseString (SnowflakeID.String (-9223372036854775808)) =
        (-9223372036854775808, none) ∧
      ParseBytes (SnowflakeID.Bytes (-9223372036854775808)) =
        (-9223372036854775808, none) ∧
      ParseInt64 (SnowflakeID.Int64 (-9223372036854775808)) = -9223372036854775808 :=
  ⟨by decide, C7_decimal_round_trip (-9223372036854775808) (by decide)⟩

/-! ## Base64 -/

theorem decodeMap_encodeByte : ∀ i, i < 64 → decodeMap (encodeByte i) = i := by decide

theorem and_63 (x : Nat) : x &&& 63 = x % 64 := Nat.and_pow_two_sub_one_eq_mod x 6

theorem or_eq_add (a b k : Nat) (h : b < 2 ^ k) : a * 2 ^ k ||| b = a * 2 ^ k + b := by
  rw [Nat.mul_comm]
  exact (Nat.mul_add_lt_is_or h a).symm

theorem shl_or3 (b0 b1 b2 : Nat) (h1 : b1 < 256) (h2 : b2 < 256) :
    b0 <<< 16 ||| b1 <<< 8 ||| b2 = b0 * 65536 + b1 * 256 + b2 := by
  rw [Nat.shiftLeft_eq, Nat.shiftLeft_eq, or_eq_add b0 (b1 * 2 ^ 8) 16 (by omega)]
  have e : b0 * 2 ^ 16 + b1 * 2 ^ 8 = (b0 * 2 ^ 8 + b1) * 2 ^ 8 := by ring
  rw [e, or_eq_add _ b2 8 (by omega)]
  ring

theorem shl_or2 (b0 b1 : Nat) (h1 : b1 < 256) :
    b0 <<< 16 ||| b1 <<< 8 = b0 * 65536 + b1 * 256 := by
  rw [Nat.shiftLeft_eq, Nat.shiftLeft_eq, or_eq_add b0 (b1 * 2 ^ 8) 16 (by omega)]
  ring

theorem shl_or4 (d0 d1 d2 d3 : Nat) (h1 : d1 < 64) (h2 : d2 < 64) (h3 : d3 < 64) :
    d0 <<< 18 ||| d1 <<< 12 ||| d2 <<< 6 ||| d3 = d0 * 262144 + d1 * 4096 + d2 * 64 + d3 := by
  rw [Nat.shiftLeft_eq, Nat.shiftLeft_eq, Nat.shiftLeft_eq,
    or_eq_add d0 (d1 * 2 ^ 12) 18 (by omega)]
  have e : d0 * 2 ^ 18 + d1 * 2 ^ 12 = (d0 * 2 ^ 6 + d1) * 2 ^ 12 := by ring
  rw [e, or_eq_add _ (d2 * 2 ^ 6) 12 (by omega)]
  have e2 : (d0 * 2 ^ 6 + d1) * 2 ^ 12 + d2 * 2 ^ 6 = ((d0 * 2 ^ 6 + d1) * 2 ^ 6 + d2) * 2 ^ 6 := by
    ring
  rw [e2, or_eq_add _ d3 6 (by omega)]
  ring

/-- Decoding a full quantum gives back the three bytes that were encoded. -/
theorem quantumBytes_full (b0 b1 b2 : Nat) (h0 : b0 < 256) (h1 : b1 < 256) (h2 : b2 < 256) :
    quantumBytes
        [(b0 <<< 16 ||| b1 <<< 8 ||| b2) >>> 18 &&& 63,
          (b0 <<< 16 ||| b1 <<< 8 ||| b2) >>> 12 &&& 63,
          (b0 <<< 16 ||| b1 <<< 8 ||| b2) >>> 6 &&& 63,
          (b0 <<< 16 ||| b1 <<< 8 ||| b2) &&& 63] 4 = [b0, b1, b2] := by
  unfold quantumBytes
  simp only [List.getD_cons_zero, List.getD_cons_succ, shl_or3 b0 b1 b2 h1 h2, and_63,
    Nat.shiftRight_eq_div_pow]
  rw [shl_or4 _ _ _ _ (Nat.mod_lt _ (by norm_num)) (Nat.mod_lt _ (by norm_num))
    (Nat.mod_lt _ (by norm_num))]
  norm_num
  refine ⟨?_, ?_, ?_⟩ <;> omega

/-- Decoding a padded quantum of three characters gives back two bytes. -/
theorem quantumBytes_two (b0 b1 : Nat) (h0 : b0 < 256) (h1 : b1 < 256) :
    quantumBytes
        [(b0 <<< 16 ||| b1 <<< 8) >>> 18 &&& 63,
          (b0 <<< 16 ||| b1 <<< 8) >>> 12 &&& 63,
          (b0 <<< 16 ||| b1 <<< 8) >>> 6 &&& 63] 3 = [b0, b1] := by
  unfold quantumBytes
  simp only [List.getD_cons_zero, List.getD_cons_succ, List.getD_nil, shl_or2 b0 b1 h1, and_63,
    Nat.shiftRight_eq_div_pow]
  rw [shl_or4 _ _ _ _ (Nat.mod_lt _ (by norm_num)) (Nat.mod_lt _ (by norm_num))
    (by norm_num)]
  norm_num
  refine ⟨?_, ?_⟩ <;> omega

/-- Decoding a padded quantum of two characters gives back one byte. -/
theorem quantumBytes_one (b0 : Nat) (h0 : b0 < 256) :
    quantumBytes [(b0 <<< 16) >>> 18 &&& 63, (b0 <<< 16) >>> 12 &&& 63] 2 = [b0] := by
  unfold quantumBytes
  simp only [List.getD_cons_zero, List.getD_cons_succ, List.getD_nil, Nat.shiftLeft_eq, and_63,
    Nat.shiftRight_eq_div_pow]
  have := shl_or4 (b0 * 2 ^ 16 / 2 ^ 18 % 64) (b0 * 2 ^ 16 / 2 ^ 12 % 64) 0 0
    (Nat.mod_lt _ (by norm_num)) (by norm_num) (by norm_num)
  simp only [Nat.shiftLeft_eq] at this
  rw [this]
  norm_num
  omega

theorem decodeLoop_value {c : Nat} (rest : List Nat) (j : Nat) (dbuf : List Nat)
    (hc : decodeMap c ≠ 255) (hj : j ≠ 3) :
    decodeLoop (c :: rest) j dbuf = decodeLoop rest (j + 1) (dbuf ++ [decodeMap c]) := by
  rw [decodeLoop, if_pos hc, if_neg hj]

theorem decodeLoop_last {c : Nat} (rest : List Nat) (dbuf : List Nat)
    (hc : decodeMap c ≠ 255) :
    decodeLoop (c :: rest) 3 dbuf =
      (decodeLoop rest 0 []).map (fun out => quantumBytes (dbuf ++ [decodeMap c]) 4 ++ out) := by
  rw [decodeLoop, if_pos hc, if_pos rfl]

theorem decodeLoop_pad2 (dbuf : List Nat) :
    decodeLoop [61, 61] 2 dbuf = some (quantumBytes dbuf 2) := by
  have h : decodeMap 61 = 255 := by decide
  simp [decodeLoop, skipNewlines, h]

theorem decodeLoop_pad1 (dbuf : List Nat) :
    decodeLoop [61] 3 dbuf = some (quantumBytes dbuf 3) := by
  have h : decodeMap 61 = 255 := by decide
  simp [decodeLoop, skipNewlines, h]

theorem decodeMap_encodeByte_and (x : Nat) :
    decodeMap (encodeByte (x &&& 63)) = x &&& 63 ∧ decodeMap (encodeByte (x &&& 63)) ≠ 255 := by
  have hlt : x &&& 63 < 64 := by rw [and_63]; exact Nat.mod_lt _ (by norm_num)
  have := decodeMap_encodeByte _ hlt
  exact ⟨this, by omega⟩

theorem EncodeToString_one (b0 : Nat) :
    EncodeToString [b0] =
      [encodeByte ((b0 <<< 16) >>> 18 &&& 63), encodeByte ((b0 <<< 16) >>> 12 &&& 63),
        61, 61] := by
  rw [EncodeToString]

theorem EncodeToString_two (b0 b1 : Nat) :
    EncodeToString [b0, b1] =
      [encodeByte ((b0 <<< 16 ||| b1 <<< 8) >>> 18 &&& 63),
        encodeByte ((b0 <<< 16 ||| b1 <<< 8) >>> 12 &&& 63),
        encodeByte ((b0 <<< 16 ||| b1 <<< 8) >>> 6 &&& 63), 61] := by
  rw [EncodeToString]

theorem EncodeToString_three (b0 b1 b2 : Nat) (rest : List Nat) :
    EncodeToString (b0 :: b1 :: b2 :: rest) =
      encodeByte ((b0 <<< 16 ||| b1 <<< 8 ||| b2) >>> 18 &&& 63) ::
        encodeByte ((b0 <<< 16 ||| b1 <<< 8 ||| b2) >>> 12 &&& 63) ::
        encodeByte ((b0 <<< 16 ||| b1 <<< 8 ||| b2) >>> 6 &&& 63) ::
        encodeByte ((b0 <<< 16 ||| b1 <<< 8 ||| b2) &&& 63) :: EncodeToString rest := by
  rw [EncodeToString]

/-- Decoding the standard encoding of a list of bytes gives the list back. -/
theorem DecodeString_EncodeToString :
    ∀ (n : Nat) (bs : List Nat), bs.length ≤ n → (∀ b ∈ bs, b < 256) →
      DecodeString (EncodeToString bs) = some bs := by
  intro n
  induction n using Nat.strong_induction_on with
  | _ n ih =>
    intro bs hlen hb
    unfold DecodeString
    match bs, hlen, hb with
    | [], _, _ => rfl
    | [b0], _, hb =>
      rw [EncodeToString_one]
      rw [decodeLoop_value _ _ _ (decodeMap_encodeByte_and _).2 (by decide),
        decodeLoop_value _ _ _ (decodeMap_encodeByte_and _).2 (by decide), decodeLoop_pad2,
        (decodeMap_encodeByte_and _).1, (decodeMap_encodeByte_and _).1]
      exact congrArg some (quantumBytes_one b0 (hb b0 (by simp)))
    | [b0, b1], _, hb =>
      rw [EncodeToString_two]
      rw [decodeLoop_value _ _ _ (decodeMap_encodeByte_and _).2 (by decide),
        decodeLoop_value _ _ _ (decodeMap_encodeByte_and _).2 (by decide),
        decodeLoop_value _ _ _ (decodeMap_encodeByte_and _).2 (by decide), decodeLoop_pad1,
        (decodeMap_encodeByte_and _).1, (decodeMap_encodeByte_and _).1,
        (decodeMap_encodeByte_and _).1]
      exact congrArg some (quantumBytes_two b0 b1 (hb b0 (by simp)) (hb b1 (by simp)))
    | b0 :: b1 :: b2 :: rest, hlen, hb =>
      rw [EncodeToString_three]
      rw [decodeLoop_value _ _ _ (decodeMap_encodeByte_and _).2 (by decide),
        decodeLoop_value _ _ _ (decodeMap_encodeByte_and _).2 (by decide),
        decodeLoop_value _ _ _ (decodeMap_encodeByte_and _).2 (by decide),
        decodeLoop_last _ _ (decodeMap_encodeByte_and _).2,
        (decodeMap_encodeByte_and _).1, (decodeMap_encodeByte_and _).1,
        (decodeMap_encodeByte_and _).1, (decodeMap_encodeByte_and _).1]
      have hrec := ih rest.length (by simp at hlen; omega) rest (le_refl _)
        (fun b hbm => hb b (by simp [hbm]))
      unfold DecodeString at hrec
      rw [hrec]
      simp only [Option.map_some', List.nil_append, List.cons_append, Option.some.injEq]
      rw [quantumBytes_full b0 b1 b2 (hb b0 (by simp)) (hb b1 (by simp)) (hb b2 (by simp))]
      rfl

theorem formatLoop_bytes :
    ∀ (room u : Nat) (acc : List Nat), (∀ b ∈ acc, b < 256) →
      ∀ b ∈ formatLoop room u acc, b < 256 := by
  intro room
  induction room with
  | zero => intro u acc h; exact h
  | succ room ih =>
    intro u acc h
    unfold formatLoop
    by_cases hu : u ≥ 10
    · rw [if_pos hu]
      apply ih
      intro b hb
      rcases List.mem_cons.1 hb with rfl | hb
      · omega
      · exact h b hb
    · rw [if_neg hu]
      intro b hb
      rcases List.mem_cons.1 hb with rfl | hb
      · omega
      · exact h b hb

/-- The decimal text of a number consists of bytes. -/
theorem FormatInt_bytes (i : Int) : ∀ b ∈ FormatInt i, b < 256 := by
  unfold FormatInt formatBits
  simp only
  split
  · intro b hb
    rcases List.mem_cons.1 hb with rfl | hb
    · decide
    · exact formatLoop_bytes _ _ _ (by simp) b hb
  · exact formatLoop_bytes _ _ _ (by simp)

/-- C8 (base64 round-trip): for every `int64` value `id`,
`ParseBase64(id.Base64())` returns `id` and no error, `Base64` being the
standard padded base64 encoding of the bytes of the decimal text of `id`. -/
theorem C8_base64_round_trip (id : Int) (h : IsInt64 id) :
    SnowflakeID.Base64 id = EncodeToString (FormatInt id) ∧
      ParseBase64 (SnowflakeID.Base64 id) = (id, none) := by
  refine ⟨rfl, ?_⟩
  have hd : DecodeString (SnowflakeID.Base64 id) = some (FormatInt id) :=
    DecodeString_EncodeToString _ _ (le_refl _) (FormatInt_bytes id)
  unfold ParseBase64
  rw [hd]
  simp only
  have hp : ParseBytes (FormatInt id) = (id, none) := ParseInt_FormatInt id h
  rw [hp]
  rfl

theorem C8_base64_round_trip_witness :
    IsInt64 7267097612291928070 ∧
      SnowflakeID.Base64 7267097612291928070 =
        "NzI2NzA5NzYxMjI5MTkyODA3MA==".toList.map Char.toNat ∧
      ParseBase64 (SnowflakeID.Base64 7267097612291928070) = (7267097612291928070, none) :=
  ⟨by decide, by decide, (C8_base64_round_trip 7267097612291928070 (by decide)).2⟩

/-! ## The new-millisecond and same-millisecond cases -/

/-- The identifier of a state that starts a millisecond in range. -/
theorem build_new_ms (s : Snowflake) (hc : s.Consts) {now : Int} (h0 : 0 ≤ now)
    (h1 : now < 2 ^ 41) :
    ({ s with sequence := 0, lastTimestamp := now } : Snowflake).build =
      now * 2 ^ 22 + s.nodeID * 2 ^ 12 := by
  have hs1 : ({ s with sequence := 0, lastTimestamp := now } : Snowflake).Inv :=
    ⟨hc, by simp, by simp, by simp; omega, by simp; omega⟩
  rw [build_eq_key hs1 h0]
  simp [Snowflake.key]

/-- C13 (new millisecond and packing): for a generator state with the constants
of `NewSnowflake`, last timestamp `L` and node `n`, a call of `ID` whose
effective reading `now` satisfies `L < now` and `0 ≤ now < 2^41` sets the
sequence to `0` and the last timestamp to `now` and returns
`(now << 22) | (n << 12) | 0 = now * 2^22 + n * 2^12`; this holds when `now` is
the first reading and when it is the resample after a compensated backward
reading. -/
theorem C13_new_millisecond (s : Snowflake) (hc : s.Consts) (now : Int) (rest : List Int)
    (h0 : 0 ≤ now) (h1 : now < 2 ^ 41) (hgt : s.lastTimestamp < now) :
    s.ID (now :: rest) =
        some
          { id := now * 2 ^ 22 + s.nodeID * 2 ^ 12
            state := { s with sequence := 0, lastTimestamp := now }
            clock := rest
            slept := [] } ∧
      Int.lor (Int.lor (shl64 now 22) (shl64 s.nodeID 12)) 0 =
        now * 2 ^ 22 + s.nodeID * 2 ^ 12 ∧
      (∀ n, n < s.lastTimestamp → s.lastTimestamp - n ≤ 5 →
        s.ID (n :: now :: rest) =
          some
            { id := now * 2 ^ 22 + s.nodeID * 2 ^ 12
              state := { s with sequence := 0, lastTimestamp := now }
              clock := rest
              slept := [sleepDuration (s.lastTimestamp - n)] }) := by
  have hb := build_new_ms s hc h0 h1
  refine ⟨?_, ?_, ?_⟩
  · rw [ID_of_not_behind s rest (by omega), produce_new_ms s rest [] (by omega), hb]
  · obtain ⟨-, -, -, -, -, -, n0, n1⟩ := hc
    rw [pack_int h0 h1 n0 n1 (le_refl _) (by norm_num), add_zero]
  · intro n hn hd
    have hw : wrap64 (s.lastTimestamp - n) = s.lastTimestamp - n :=
      wrap64_of_isInt64 (by unfold IsInt64; omega)
    rw [ID_near_caught_up s rest hn (by rw [hw]; exact hd) (by omega),
      produce_new_ms s rest _ (by omega), hb, hw]

theorem C13_new_millisecond_witness :
    (mkSnowflake 1).Consts ∧ (0 : Int) ≤ 5 ∧ (5 : Int) < 2 ^ 41 ∧
      (mkSnowflake 1).lastTimestamp < 5 ∧
      (mkSnowflake 1).ID (5 :: [6]) =
        some
          { id := 5 * 2 ^ 22 + (mkSnowflake 1).nodeID * 2 ^ 12
            state := { mkSnowflake 1 with sequence := 0, lastTimestamp := 5 }
            clock := [6]
            slept := [] } :=
  ⟨by decide, by decide, by decide, by decide,
    (C13_new_millisecond (mkSnowflake 1) (by decide) 5 [6] (by decide) (by decide)
      (by decide)).1⟩

/-! ### Packing with any timestamp -/

theorem nat_ldiff_zero (m : Nat) : Nat.ldiff m 0 = m := by
  apply Nat.eq_of_testBit_eq
  intro i
  rw [Nat.testBit_ldiff]
  simp

theorem int_lor_zero (h : Int) : Int.lor h 0 = h := by
  cases h with
  | ofNat m =>
    show ((m ||| 0 : Nat) : Int) = _
    simp
  | negSucc m =>
    show Int.negSucc (Nat.ldiff m 0) = _
    rw [nat_ldiff_zero]

theorem lor_eq_add_of_low_zero :
    ∀ (k : Nat) (h q : Int), h % 2 ^ k = 0 → 0 ≤ q → q < 2 ^ k → Int.lor h q = h + q := by
  intro k
  induction k with
  | zero =>
    intro h q _ h0 h1
    have : q = 0 := by
      simp only [pow_zero] at h1
      omega
    subst this
    rw [int_lor_zero, add_zero]
  | succ k ih =>
    intro h q hh h0 h1
    obtain ⟨c, hc⟩ := Int.dvd_of_emod_eq_zero hh
    have hp : (0 : Int) < 2 ^ k := by positivity
    have e2 : (2 : Int) ^ (k + 1) = 2 * 2 ^ k := by ring
    rw [e2] at hc h1
    have eh : h = Int.bit false (2 ^ k * c) := by
      rw [Int.bit_val, hc]
      simp only [cond_false, add_zero]
      ring
    have eq : q = Int.bit (decide (q % 2 = 1)) (q / 2) := by
      rw [Int.bit_val]
      by_cases hb : q % 2 = 1
      · simp only [hb, decide_True, cond_true]
        omega
      · simp only [hb, decide_False, cond_false]
        omega
    have hq2 : q / 2 < 2 ^ k := by
      generalize (2 : Int) ^ k = p at hp h1 ⊢
      omega
    have := ih (2 ^ k * c) (q / 2) (Int.mul_emod_right _ _) (by omega) hq2
    rw [eh, eq, Int.lor_bit, this, Int.bit_val, Int.bit_val, Int.bit_val]
    simp only [Bool.false_or, cond_false]
    ring

theorem shl64_low_zero (x : Int) : shl64 x 22 % 2 ^ 22 = 0 := by
  unfold shl64 wrap64
  have h : x * 2 ^ 22 = 4194304 * x := by ring
  rw [h]
  omega

/-- Whatever the timestamp, the identifier of a state with the constants of
`NewSnowflake` and a sequence in range is the shifted timestamp plus the node
and sequence fields. -/
theorem build_eq_add (s : Snowflake) (hc : s.Consts) (q0 : 0 ≤ s.sequence)
    (q1 : s.sequence ≤ 4095) :
    s.build = shl64 s.lastTimestamp 22 + s.nodeID * 2 ^ 12 + s.sequence := by
  obtain ⟨-, -, -, -, c5, c6, n0, n1⟩ := hc
  unfold Snowflake.build
  rw [c5, c6]
  have hn : shl64 s.nodeID 12 = s.nodeID * 2 ^ 12 := by
    unfold shl64
    exact wrap64_of_isInt64 (by unfold IsInt64; omega)
  have h1 := shl64_low_zero s.lastTimestamp
  rw [hn, lor_eq_add_of_low_zero 22 _ _ h1 (by omega) (by omega)]
  have h2 : (shl64 s.lastTimestamp 22 + s.nodeID * 2 ^ 12) % 2 ^ 12 = 0 := by omega
  rw [lor_eq_add_of_low_zero 12 _ _ h2 q0 (by omega)]

/-- Same millisecond, sequence not exhausted, for any last timestamp. -/
theorem produce_same_ms_any (s : Snowflake) (hm : s.maxSequence = 4095) (q0 : 0 ≤ s.sequence)
    (clock slept : List Int) (hq : s.sequence < 4095) :
    s.produce s.lastTimestamp clock slept =
      some
        { id := ({ s with sequence := s.sequence + 1 } : Snowflake).build
          state := { s with sequence := s.sequence + 1 }
          clock := clock
          slept := slept } := by
  have hl : Int.land (wrap64 (s.sequence + 1)) s.maxSequence = s.sequence + 1 := by
    rw [hm, land_succ q0 (by omega)]; omega
  unfold Snowflake.produce
  rw [if_pos rfl]
  simp only [hl]
  rw [if_neg (by omega)]

/-- C14 (same millisecond): for a generator state with the constants of
`NewSnowflake` whose last identifier `prev = build()` has timestamp `L` and
sequence `q` with `0 ≤ q < 4095`, a call of `ID` whose effective reading equals
`L` (the first reading, or the resample after a compensated backward reading)
sets the sequence to `q + 1 = (q + 1) mod 4096`, leaves the last timestamp at
`L`, reads the clock no further and returns `prev + 1`. -/
theorem C14_same_millisecond (s : Snowflake) (hc : s.Consts) (rest : List Int)
    (q0 : 0 ≤ s.sequence) (hq : s.sequence < 4095) :
    s.ID (s.lastTimestamp :: rest) =
        some
          { id := s.build + 1
            state := { s with sequence := s.sequence + 1 }
            clock := rest
            slept := [] } ∧
      s.sequence + 1 = (s.sequence + 1) % 4096 ∧
      ({ s with sequence := s.sequence + 1 } : Snowflake).lastTimestamp = s.lastTimestamp ∧
      (0 ≤ s.lastTimestamp → s.lastTimestamp < 2 ^ 41 →
        s.build = s.lastTimestamp * 2 ^ 22 + s.nodeID * 2 ^ 12 + s.sequence) ∧
      (∀ n, n < s.lastTimestamp → s.lastTimestamp - n ≤ 5 →
        s.ID (n :: s.lastTimestamp :: rest) =
          some
            { id := s.build + 1
              state := { s with sequence := s.sequence + 1 }
              clock := rest
              slept := [sleepDuration (s.lastTimestamp - n)] }) := by
  have hm : s.maxSequence = 4095 := hc.2.2.2.1
  have hb : ({ s with sequence := s.sequence + 1 } : Snowflake).build = s.build + 1 := by
    have h1 := build_eq_add { s with sequence := s.sequence + 1 } hc
      (by show 0 ≤ s.sequence + 1; omega) (by show s.sequence + 1 ≤ 4095; omega)
    rw [h1, build_eq_add s hc q0 (by omega)]
    simp only
    ring
  refine ⟨?_, by omega, rfl, ?_, ?_⟩
  · rw [ID_of_not_behind s rest (lt_irrefl _), produce_same_ms_any s hm q0 rest [] hq, hb]
  · intro l0 l1
    exact build_eq_key ⟨hc, q0, by omega, by omega, l1⟩ l0
  · intro n hn hd
    have hw : wrap64 (s.lastTimestamp - n) = s.lastTimestamp - n :=
      wrap64_of_isInt64 (by unfold IsInt64; omega)
    rw [ID_near_caught_up s rest hn (by rw [hw]; exact hd) (lt_irrefl _),
      produce_same_ms_any s hm q0 rest _ hq, hb, hw]

theorem C14_same_millisecond_witness :
    ({ mkSnowflake 1 with sequence := 7, lastTimestamp := 5 } : Snowflake).Consts ∧
      0 ≤ ({ mkSnowflake 1 with sequence := 7, lastTimestamp := 5 } : Snowflake).sequence ∧
      ({ mkSnowflake 1 with sequence := 7, lastTimestamp := 5 } : Snowflake).sequence < 4095 ∧
      ({ mkSnowflake 1 with sequence := 7, lastTimestamp := 5 } : Snowflake).ID
          (({ mkSnowflake 1 with sequence := 7, lastTimestamp := 5 } : Snowflake).lastTimestamp
            :: [4]) =
        some
          { id := ({ mkSnowflake 1 with sequence := 7, lastTimestamp := 5 } : Snowflake).build + 1
            state := { mkSnowflake 1 with sequence := 7 + 1, lastTimestamp := 5 }
            clock := [4]
            slept := [] } :=
  ⟨by decide, by decide, by decide,
    (C14_same_millisecond { mkSnowflake 1 with sequence := 7, lastTimestamp := 5 } (by decide)
      [4] (by decide) (by decide)).1⟩

/-! ## What a call changes -/

/-- A returned `produce` changes only the sequence and the last timestamp: the
sequence becomes `0` or the wrapped successor, the last timestamp does not go
below the value `now` it was entered with, and the identifier is the packed new
state. -/
theorem produce_frame (s : Snowflake) {now : Int} {clock slept : List Int} {o : Outcome}
    (h : s.produce now clock slept = some o) :
    o.id = o.state.build ∧ o.slept = slept ∧ now ≤ o.state.lastTimestamp ∧
      ∃ q l, o.state = { s with sequence := q, lastTimestamp := l } ∧
        (q = 0 ∨ q = Int.land (wrap64 (s.sequence + 1)) s.maxSequence) := by
  unfold Snowflake.produce at h
  by_cases hnow : now = s.lastTimestamp
  · rw [if_pos hnow] at h
    simp only at h
    by_cases hz : Int.land (wrap64 (s.sequence + 1)) s.maxSequence = 0
    · rw [if_pos hz] at h
      cases hw : waitNext s.lastTimestamp now clock with
      | none => rw [hw] at h; exact absurd h (by simp)
      | some r =>
        obtain ⟨now2, clock2⟩ := r
        rw [hw] at h
        simp only [Option.some.injEq] at h
        obtain ⟨h2, -⟩ := waitNext_spec _ _ _ _ hw
        simp only at h2
        subst h
        exact ⟨rfl, rfl, by simp only; omega, _, _, rfl, Or.inr rfl⟩
    · rw [if_neg hz] at h
      simp only [Option.some.injEq] at h
      subst h
      exact ⟨rfl, rfl, le_refl _, _, _, rfl, Or.inr rfl⟩
  · rw [if_neg hnow] at h
    simp only [Option.some.injEq] at h
    subst h
    exact ⟨rfl, rfl, le_refl _, _, _, rfl, Or.inl rfl⟩

/-- The two ways in which `ID` returns: through one of the `return -1`
statements, with the state untouched, or through `build`, with only the
sequence and the last timestamp changed. -/
theorem ID_cases (s : Snowflake) {clock : List Int} {o : Outcome} (h : s.ID clock = some o) :
    (o.id = -1 ∧ o.state = s ∧ ∃ n ∈ clock, n < s.lastTimestamp) ∨
      (o.id = o.state.build ∧ s.lastTimestamp ≤ o.state.lastTimestamp ∧
        ∃ q l, o.state = { s with sequence := q, lastTimestamp := l } ∧
          (q = 0 ∨ q = Int.land (wrap64 (s.sequence + 1)) s.maxSequence)) := by
  cases clock with
  | nil => exact absurd h (by simp [Snowflake.ID])
  | cons n c1 =>
    by_cases hb : n < s.lastTimestamp
    · by_cases ho : wrap64 (s.lastTimestamp - n) ≤ 5
      · cases c1 with
        | nil => rw [ID_near_no_reading s hb ho] at h; exact absurd h (by simp)
        | cons r c2 =>
          by_cases hr : r < s.lastTimestamp
          · rw [ID_near_still_behind s c2 hb ho hr] at h
            simp only [Option.some.injEq] at h
            subst h
            exact Or.inl ⟨rfl, rfl, n, by simp, hb⟩
          · rw [ID_near_caught_up s c2 hb ho hr] at h
            obtain ⟨p1, -, p3, p4⟩ := produce_frame s h
            exact Or.inr ⟨p1, by omega, p4⟩
      · rw [ID_far_behind s c1 hb ho] at h
        simp only [Option.some.injEq] at h
        subst h
        exact Or.inl ⟨rfl, rfl, n, by simp, hb⟩
    · rw [ID_of_not_behind s c1 hb] at h
      obtain ⟨p1, -, p3, p4⟩ := produce_frame s h
      exact Or.inr ⟨p1, by omega, p4⟩

/-- The wrapped successor of a sequence in range is in range. -/
theorem land_succ_range {q : Int} (hq : 0 ≤ q) (hq1 : q ≤ 4095) :
    0 ≤ Int.land (wrap64 (q + 1)) 4095 ∧ Int.land (wrap64 (q + 1)) 4095 ≤ 4095 := by
  rw [land_succ hq hq1]
  omega

/-- Whatever the clock readings, a run changes only the sequence and the last
timestamp, and the sequence stays in `[0, 4095]`. -/
theorem runIDs_frame :
    ∀ (k : Nat) (s : Snowflake) (clock : List Int), s.maxSequence = 4095 →
      0 ≤ s.sequence → s.sequence ≤ 4095 →
      ∃ q l, (runIDs k s clock).2.1 = { s with sequence := q, lastTimestamp := l } ∧
        0 ≤ q ∧ q ≤ 4095 ∧ s.lastTimestamp ≤ l := by
  intro k
  induction k with
  | zero => intro s clock _ h0 h1; exact ⟨s.sequence, s.lastTimestamp, rfl, h0, h1, le_refl _⟩
  | succ k ih =>
    intro s clock hm h0 h1
    unfold runIDs
    cases h : s.ID clock with
    | none => exact ⟨s.sequence, s.lastTimestamp, rfl, h0, h1, le_refl _⟩
    | some o =>
      simp only
      rcases ID_cases s h with ⟨-, f2, -⟩ | ⟨-, hl, q, l, f2, f3⟩
      · rw [f2]
        exact ih s o.clock hm h0 h1
      · have hq : 0 ≤ q ∧ q ≤ 4095 := by
          rcases f3 with rfl | rfl
          · omega
          · rw [hm]; exact land_succ_range h0 h1
        obtain ⟨q2, l2, g1, g2, g3, g4⟩ := ih o.state o.clock (by rw [f2]; exact hm)
          (by rw [f2]; exact hq.1) (by rw [f2]; exact hq.2)
        refine ⟨q2, l2, ?_, g2, g3, by omega⟩
        rw [g1, f2]

/-- C15 (state invariant): in every state that a generator returned by
`NewSnowflake` reaches after any number of calls of `ID`, whatever the clock
readings, `0 ≤ sequence ≤ 4095` and `0 ≤ nodeID ≤ 1023`, and every field other
than `sequence` and `lastTimestamp` holds the value set at construction:
`nodeID` the supplied value, `maxNodeID = 1023`, `maxSequence = 4095`,
`nodeShift = 12`, `timestampShift = 22`. -/
theorem C15_state_invariant (zoneOffset now : Int) (option : SnowflakeOption) (s : Snowflake)
    (clock : List Int) (k : Nat)
    (hnew : (NewSnowflake zoneOffset now option).snowflake = some s) :
    (∃ q l, (runIDs k s clock).2.1 = { s with sequence := q, lastTimestamp := l }) ∧
      0 ≤ (runIDs k s clock).2.1.sequence ∧ (runIDs k s clock).2.1.sequence ≤ 4095 ∧
      0 ≤ (runIDs k s clock).2.1.nodeID ∧ (runIDs k s clock).2.1.nodeID ≤ 1023 ∧
      (runIDs k s clock).2.1.nodeID = option.NodeID ∧
      (runIDs k s clock).2.1.maxNodeID = 1023 ∧
      (runIDs k s clock).2.1.maxSequence = 4095 ∧
      (runIDs k s clock).2.1.nodeShift = 12 ∧
      (runIDs k s clock).2.1.timestampShift = 22 := by
  obtain ⟨⟨⟨-, -, c3, c4, c5, c6, c7, c8⟩, q0, q1, -, -⟩, hn, -, -⟩ := NewSnowflake_some hnew
  obtain ⟨q, l, e, g0, g1, -⟩ := runIDs_frame k s clock c4 q0 q1
  rw [e]
  exact ⟨⟨q, l, rfl⟩, g0, g1, c7, c8, hn, c3, c4, c5, c6⟩

theorem C15_state_invariant_witness :
    (NewSnowflake 0 0 { Epoch := 0, NodeID := 1 }).snowflake = some (mkSnowflake 1) ∧
      (runIDs 4 (mkSnowflake 1) [9, -3, 9, 9, 2 ^ 50]).2.1.sequence ≤ 4095 ∧
      (runIDs 4 (mkSnowflake 1) [9, -3, 9, 9, 2 ^ 50]).2.1.nodeID = 1 :=
  ⟨by decide,
    (C15_state_invariant 0 0 { Epoch := 0, NodeID := 1 } (mkSnowflake 1) [9, -3, 9, 9, 2 ^ 50] 4
      (by decide)).2.2.1,
    (C15_state_invariant 0 0 { Epoch := 0, NodeID := 1 } (mkSnowflake 1) [9, -3, 9, 9, 2 ^ 50] 4
      (by decide)).2.2.2.2.2.1⟩

/-! ## The sign bit and the sentinel -/

theorem key_lt {s : Snowflake} (hs : s.Inv) : s.key < 2 ^ 63 := by
  obtain ⟨⟨-, -, -, -, -, -, -, c8⟩, -, q1, -, l1⟩ := hs
  unfold Snowflake.key
  omega

/-- On in-range readings a run keeps the state in range, leaves in-range
readings, and returns only the sentinel or values in `[0, 2^63)`. -/
theorem runIDs_inv :
    ∀ (k : Nat) (s : Snowflake) (clock : List Int), s.Inv → InRange clock →
      (runIDs k s clock).2.1.Inv ∧ InRange (runIDs k s clock).2.2 ∧
        ∀ x ∈ (runIDs k s clock).1, x = -1 ∨ (0 ≤ x ∧ x < 2 ^ 63) := by
  intro k
  induction k with
  | zero => intro s clock hs hc; exact ⟨hs, hc, by simp [runIDs]⟩
  | succ k ih =>
    intro s clock hs hc
    unfold runIDs
    cases h : s.ID clock with
    | none => exact ⟨hs, by intro r hr; simp at hr, by simp⟩
    | some o =>
      simp only
      rcases ID_step hs hc h with ⟨f1, f2, ⟨pre, f3⟩, -⟩ | ⟨i1, -, i3, -, i5, pre, i6⟩
      · have hc2 : InRange o.clock := inRange_of_append (f3 ▸ hc)
        obtain ⟨g1, g2, g3⟩ := ih o.state o.clock (f2 ▸ hs) hc2
        refine ⟨g1, g2, ?_⟩
        intro x hx
        rcases List.mem_cons.1 hx with rfl | hx
        · exact Or.inl f1
        · exact g3 x hx
      · have hc2 : InRange o.clock := by
          have := inRange_of_append (i6 ▸ hc)
          exact fun r hr => this r (by simp [hr])
        obtain ⟨g1, g2, g3⟩ := ih o.state o.clock i1 hc2
        refine ⟨g1, g2, ?_⟩
        intro x hx
        rcases List.mem_cons.1 hx with rfl | hx
        · have h1 := key_nonneg i1 i5
          have h2 := key_lt i1
          exact Or.inr ⟨by omega, by omega⟩
        · exact g3 x hx

/-- C16 (sign bit, sentinel out of band): for a generator returned by
`NewSnowflake` and clock readings in `[0, 2^41)`, every value that a run of
calls of `ID` returns is the sentinel `-1` or lies in `[0, 2^63)`; and from
every state the run reaches, a call on in-range readings either returns through
a `return -1` (some reading lies below the last timestamp, the state is left
alone) or returns the packed identifier of the new state, which lies in
`[0, 2^63)` and is therefore not `-1`. -/
theorem C16_sign_bit (zoneOffset now : Int) (option : SnowflakeOption) (s : Snowflake)
    (clock : List Int) (k : Nat)
    (hnew : (NewSnowflake zoneOffset now option).snowflake = some s)
    (hclock : InRange clock) :
    (∀ x ∈ (runIDs k s clock).1, x = -1 ∨ (0 ≤ x ∧ x < 2 ^ 63)) ∧
      ∀ (c : List Int) (o : Outcome), InRange c → (runIDs k s clock).2.1.ID c = some o →
        (o.id = -1 ∧ o.state = (runIDs k s clock).2.1 ∧
            ∃ n ∈ c, n < (runIDs k s clock).2.1.lastTimestamp) ∨
          (o.id = o.state.build ∧ 0 ≤ o.id ∧ o.id < 2 ^ 63 ∧ o.id ≠ -1) := by
  obtain ⟨g1, -, g3⟩ := runIDs_inv k s clock (NewSnowflake_some hnew).1 hclock
  refine ⟨g3, ?_⟩
  intro c o hc ho
  rcases ID_step g1 hc ho with ⟨f1, f2, -, f4⟩ | ⟨i1, -, i3, -, i5, -⟩
  · exact Or.inl ⟨f1, f2, f4⟩
  · have h1 := key_nonneg i1 i5
    have h2 := key_lt i1
    exact Or.inr ⟨by rw [i3, build_eq_key i1 i5], by omega, by omega, by omega⟩

theorem C16_sign_bit_witness :
    (NewSnowflake 0 0 { Epoch := 0, NodeID := 1 }).snowflake = some (mkSnowflake 1) ∧
      InRange [5, 5, 4, 3, 9] ∧
      ∀ x ∈ (runIDs 4 (mkSnowflake 1) [5, 5, 4, 3, 9]).1, x = -1 ∨ (0 ≤ x ∧ x < 2 ^ 63) :=
  ⟨by decide, by decide,
    (C16_sign_bit 0 0 { Epoch := 0, NodeID := 1 } (mkSnowflake 1) [5, 5, 4, 3, 9] 4 (by decide)
      (by decide)).1⟩

/-! ## Failed calls -/

/-- C17 (failure is atomic): when the first reading `n` is below the last
timestamp and either the offset exceeds `5` or the offset is at most `5` and
the resample is still below the last timestamp, `ID` returns `-1` and the
generator has exactly the state it had before the call, so every later run
behaves as it would from the state before the call.  Conversely, on a state in
range and in-range readings every call that returns `-1` leaves the state
unchanged. -/
theorem C17_failure_atomic (s : Snowflake) (n : Int) (rest : List Int)
    (hb : n < s.lastTimestamp)
    (hfail : ¬ wrap64 (s.lastTimestamp - n) ≤ 5 ∨
      (wrap64 (s.lastTimestamp - n) ≤ 5 ∧ ∃ r rest2, rest = r :: rest2 ∧ r < s.lastTimestamp)) :
    (∃ o, s.ID (n :: rest) = some o ∧ o.id = -1 ∧ o.state = s ∧
        o.state.sequence = s.sequence ∧ o.state.lastTimestamp = s.lastTimestamp ∧
        ∀ (k : Nat) (clock2 : List Int), runIDs k o.state clock2 = runIDs k s clock2) ∧
      (s.Inv → InRange (n :: rest) →
        ∀ o, s.ID (n :: rest) = some o → o.id = -1 → o.state = s) := by
  refine ⟨?_, ?_⟩
  · rcases hfail with ho | ⟨ho, r, rest2, e, hr⟩
    · exact ⟨_, ID_far_behind s rest hb ho, rfl, rfl, rfl, rfl, fun _ _ => rfl⟩
    · subst e
      exact ⟨_, ID_near_still_behind s rest2 hb ho hr, rfl, rfl, rfl, rfl, fun _ _ => rfl⟩
  · intro hs hc o ho hid
    rcases ID_step hs hc ho with ⟨-, f2, -, -⟩ | ⟨i1, -, i3, -, i5, -⟩
    · exact f2
    · have := key_nonneg i1 i5
      omega

theorem C17_failure_atomic_witness :
    (92 : Int) < ({ mkSnowflake 1 with sequence := 3, lastTimestamp := 100 } : Snowflake).lastTimestamp ∧
      (∃ o, ({ mkSnowflake 1 with sequence := 3, lastTimestamp := 100 } : Snowflake).ID
          (92 :: [100]) = some o ∧ o.id = -1 ∧
        o.state = { mkSnowflake 1 with sequence := 3, lastTimestamp := 100 } ∧
        o.state.sequence =
          ({ mkSnowflake 1 with sequence := 3, lastTimestamp := 100 } : Snowflake).sequence ∧
        o.state.lastTimestamp =
          ({ mkSnowflake 1 with sequence := 3, lastTimestamp := 100 } : Snowflake).lastTimestamp ∧
        ∀ (k : Nat) (clock2 : List Int), runIDs k o.state clock2 =
          runIDs k { mkSnowflake 1 with sequence := 3, lastTimestamp := 100 } clock2) :=
  ⟨by decide,
    (C17_failure_atomic { mkSnowflake 1 with sequence := 3, lastTimestamp := 100 } 92 [100]
      (by decide) (Or.inl (by decide))).1⟩

/-! ## The last timestamp -/

/-- C18 (the last timestamp): for every generator state and every returned call
of `ID`, whatever the clock readings, the last timestamp after the call is not
below the one before it; and for a state in range and readings in `[0, 2^41)`,
after a call that returned an identifier other than `-1` the last timestamp is
the timestamp field `id >> 22` of that identifier and the sequence is its
sequence field `id & 4095`. -/
theorem C18_last_timestamp (s : Snowflake) (clock : List Int) (o : Outcome)
    (h : s.ID clock = some o) :
    s.lastTimestamp ≤ o.state.lastTimestamp ∧
      (s.Inv → InRange clock → o.id ≠ -1 →
        o.state.lastTimestamp = o.id >>> (22 : Nat) ∧
          o.state.sequence = Int.land o.id 4095) := by
  refine ⟨?_, ?_⟩
  · rcases ID_cases s h with ⟨-, f2, -⟩ | ⟨-, hl, -⟩
    · rw [f2]
    · exact hl
  · intro hs hc hid
    rcases ID_step hs hc h with ⟨f1, -, -, -⟩ | ⟨i1, -, i3, -, i5, -⟩
    · exact absurd f1 hid
    · obtain ⟨hcs, q0, q1, -, l1⟩ := i1
      obtain ⟨-, e1, -, e3⟩ := build_fields o.state hcs ⟨i5, l1⟩ ⟨q0, q1⟩
      rw [i3, ← build_eq_key ⟨hcs, q0, q1, by omega, l1⟩ i5]
      exact ⟨e1.symm, e3.symm⟩

theorem C18_last_timestamp_witness :
    ({ mkSnowflake 1 with sequence := 3, lastTimestamp := 100 } : Snowflake).ID [97, 104] =
        some
          { id := 104 * 2 ^ 22 + 2 ^ 12
            state := { mkSnowflake 1 with sequence := 0, lastTimestamp := 104 }
            clock := []
            slept := [6000000] } ∧
      ({ mkSnowflake 1 with sequence := 3, lastTimestamp := 100 } : Snowflake).lastTimestamp ≤
        ({ mkSnowflake 1 with sequence := 0, lastTimestamp := 104 } : Snowflake).lastTimestamp :=
  ⟨by decide,
    (C18_last_timestamp { mkSnowflake 1 with sequence := 3, lastTimestamp := 100 } [97, 104]
      { id := 104 * 2 ^ 22 + 2 ^ 12
        state := { mkSnowflake 1 with sequence := 0, lastTimestamp := 104 }
        clock := []
        slept := [6000000] } (by decide)).1⟩

/-! ## The compensation sleep -/

theorem sleepDuration_small {d : Int} (h1 : 1 ≤ d) (h5 : d ≤ 5) :
    sleepDuration d = 2 * d * 1000000 := by
  unfold sleepDuration shl64 wrap64
  norm_num
  omega

/-- C19 (compensation sleep): let `n` be the first reading of a call of `ID` and
`L` the last timestamp.
* If `d = L - n` satisfies `1 ≤ d ≤ 5`, the call passes `2 * d` milliseconds
  (`d << 1`, as `2 * d * 10^6` nanoseconds) to `time.Sleep`, once, and takes
  exactly one more reading `r`: without it the call has not returned; with
  `r < L` it returns `-1` and the readings after `r` are not consumed; with
  `r ≥ L` it goes on to the sequence step with `r`.  Every returned call has
  slept exactly that once.
* If `L - n > 5` (an `int64` difference) the call returns `-1` at once and has
  not slept.
* If `n ≥ L` a returned call has not slept. -/
theorem C19_compensation_sleep (s : Snowflake) (n : Int) (rest : List Int) :
    (∀ d, s.lastTimestamp - n = d → 1 ≤ d → d ≤ 5 →
        sleepDuration d = 2 * d * 1000000 ∧
          s.ID [n] = none ∧
          (∀ r rest2, r < s.lastTimestamp →
            s.ID (n :: r :: rest2) =
              some { id := -1, state := s, clock := rest2, slept := [2 * d * 1000000] }) ∧
          (∀ r rest2, s.lastTimestamp ≤ r →
            s.ID (n :: r :: rest2) = s.produce r rest2 [2 * d * 1000000]) ∧
          (∀ o, s.ID (n :: rest) = some o → o.slept = [2 * d * 1000000])) ∧
      (IsInt64 (s.lastTimestamp - n) → s.lastTimestamp - n > 5 →
        s.ID (n :: rest) = some { id := -1, state := s, clock := rest, slept := [] }) ∧
      (s.lastTimestamp ≤ n → ∀ o, s.ID (n :: rest) = some o → o.slept = []) := by
  refine ⟨?_, ?_, ?_⟩
  · intro d hd h1 h5
    have hb : n < s.lastTimestamp := by omega
    have hw : wrap64 (s.lastTimestamp - n) = d := by
      rw [wrap64_of_isInt64 (by unfold IsInt64; omega), hd]
    have ho : wrap64 (s.lastTimestamp - n) ≤ 5 := by rw [hw]; exact h5
    have hsl := sleepDuration_small h1 h5
    have hbehind : ∀ r rest2, r < s.lastTimestamp →
        s.ID (n :: r :: rest2) =
          some { id := -1, state := s, clock := rest2, slept := [2 * d * 1000000] } := by
      intro r rest2 hr
      rw [ID_near_still_behind s rest2 hb ho hr, hw, hsl]
    have hcaught : ∀ r rest2, s.lastTimestamp ≤ r →
        s.ID (n :: r :: rest2) = s.produce r rest2 [2 * d * 1000000] := by
      intro r rest2 hr
      rw [ID_near_caught_up s rest2 hb ho (by omega), hw, hsl]
    refine ⟨hsl, ID_near_no_reading s hb ho, hbehind, hcaught, ?_⟩
    intro o h
    cases rest with
    | nil => rw [ID_near_no_reading s hb ho] at h; exact absurd h (by simp)
    | cons r rest2 =>
      by_cases hr : r < s.lastTimestamp
      · rw [hbehind r rest2 hr] at h
        simp only [Option.some.injEq] at h
        rw [← h]
      · rw [hcaught r rest2 (by omega)] at h
        exact (produce_frame s h).2.1
  · intro hi hgt
    exact ID_far_behind s rest (by omega) (by rw [wrap64_of_isInt64 hi]; omega)
  · intro hge o h
    rw [ID_of_not_behind s rest (by omega)] at h
    exact (produce_frame s h).2.1

theorem C19_compensation_sleep_witness :
    ({ mkSnowflake 1 with lastTimestamp := 100 } : Snowflake).ID [97, 99, 100] =
        some
          { id := -1
            state := { mkSnowflake 1 with lastTimestamp := 100 }
            clock := [100]
            slept := [2 * 3 * 1000000] } ∧
      ({ mkSnowflake 1 with lastTimestamp := 100 } : Snowflake).ID [97] = none :=
  ⟨((C19_compensation_sleep { mkSnowflake 1 with lastTimestamp := 100 } 97 []).1 3
      (by decide) (by decide) (by decide)).2.2.1 99 [100] (by decide),
    ((C19_compensation_sleep { mkSnowflake 1 with lastTimestamp := 100 } 97 []).1 3
      (by decide) (by decide) (by decide)).2.1⟩

/-! ## Boundary constants -/

theorem shl64_neg_one (k : Nat) (hk : k ≤ 62) : shl64 (-1) k = Int.negSucc (2 ^ k - 1) := by
  have h1 : (1 : Int) ≤ 2 ^ k := one_le_pow₀ (by norm_num)
  have h2 : (2 : Int) ^ k ≤ 2 ^ 62 := pow_le_pow_right₀ (by norm_num) hk
  have h3 : 1 ≤ 2 ^ k := Nat.one_le_two_pow
  rw [Int.negSucc_eq]
  push_cast [Nat.cast_sub h3]
  unfold shl64 wrap64
  generalize (2 : Int) ^ k = p at h1 h2 ⊢
  omega

/-- C20 (boundary constants): in 64-bit two's-complement arithmetic
`(-1) XOR ((-1) << k) = 2^k - 1` for every width `k` in `[0, 62]`; and a
generator returned by `NewSnowflake` has `nodeBits = 10`, `sequenceBits = 12`,
`maxNodeID = 2^10 - 1 = 1023`, `maxSequence = 2^12 - 1 = 4095`, `nodeShift = 12`
and `timestampShift = 22`, the two widths filling exactly the `22` bits that
the sign bit and a 41-bit timestamp leave free. -/
theorem C20_boundary_constants (k : Nat) (hk : k ≤ 62) :
    Int.xor (-1) (shl64 (-1) k) = 2 ^ k - 1 ∧
      ∀ (zoneOffset now : Int) (option : SnowflakeOption) (s : Snowflake),
        (NewSnowflake zoneOffset now option).snowflake = some s →
        s.nodeBits = 10 ∧ s.sequenceBits = 12 ∧
          s.maxNodeID = Int.xor (-1) (shl64 (-1) s.nodeBits) ∧ s.maxNodeID = 1023 ∧
          s.maxSequence = Int.xor (-1) (shl64 (-1) s.sequenceBits) ∧ s.maxSequence = 4095 ∧
          s.nodeShift = 12 ∧ s.timestampShift = 22 ∧
          s.nodeBits + s.sequenceBits = 22 ∧ s.nodeBits + s.sequenceBits ≤ 64 - 1 - 41 := by
  refine ⟨?_, ?_⟩
  · rw [shl64_neg_one k hk]
    have h3 : 1 ≤ 2 ^ k := Nat.one_le_two_pow
    show Int.xor (Int.negSucc 0) (Int.negSucc (2 ^ k - 1)) = _
    simp only [Int.xor]
    simp
  · intro zoneOffset now option s hnew
    obtain ⟨⟨⟨c1, c2, c3, c4, c5, c6, -, -⟩, -, -, -, -⟩, -, -, -⟩ := NewSnowflake_some hnew
    refine ⟨c1, c2, ?_, c3, ?_, c4, c5, c6, by omega, by omega⟩
    · rw [c1, c3, maxNodeID_eq]
    · rw [c2, c4, maxSequence_eq]

theorem C20_boundary_constants_witness :
    10 ≤ 62 ∧ Int.xor (-1) (shl64 (-1) 10) = 2 ^ 10 - 1 :=
  ⟨by decide, (C20_boundary_constants 10 (by decide)).1⟩

/-! ## Parse errors -/

theorem foldl_digits_ge (cs : List Nat) :
    ∀ n : Nat, n ≤ cs.foldl (fun a c => a * 10 + (c - 48)) n := by
  induction cs with
  | nil => intro n; exact le_refl _
  | cons c cs ih =>
    intro n
    simp only [List.foldl_cons]
    have := ih (n * 10 + (c - 48))
    omega

/-- The loop of `ParseUint` returns no error exactly on digits whose number
fits 64 bits; its errors are a syntax error, or a range error with the largest
`uint64`. -/
theorem parseUintLoop_spec (cs : List Nat) :
    ∀ n : Nat, n < 2 ^ 64 →
      (((∀ c ∈ cs, 48 ≤ c ∧ c ≤ 57) ∧ cs.foldl (fun a c => a * 10 + (c - 48)) n < 2 ^ 64) ∧
          parseUintLoop cs n = (cs.foldl (fun a c => a * 10 + (c - 48)) n, none)) ∨
        (¬ ((∀ c ∈ cs, 48 ≤ c ∧ c ≤ 57) ∧
              cs.foldl (fun a c => a * 10 + (c - 48)) n < 2 ^ 64) ∧
          ((parseUintLoop cs n).2 = some NumError.ErrSyntax ∨
            parseUintLoop cs n = (2 ^ 64 - 1, some NumError.ErrRange))) := by
  induction cs with
  | nil =>
    intro n hn
    left
    exact ⟨⟨by simp, by simpa using hn⟩, rfl⟩
  | cons c cs ih =>
    intro n hn
    unfold parseUintLoop
    simp only [List.foldl_cons]
    by_cases hd : 48 ≤ c ∧ c ≤ 57
    · rw [if_pos hd]
      by_cases hcut : n ≥ (2 ^ 64 - 1) / 10 + 1
      · rw [if_pos hcut]
        right
        refine ⟨?_, Or.inr rfl⟩
        rintro ⟨-, hlt⟩
        have := foldl_digits_ge cs (n * 10 + (c - 48))
        omega
      · rw [if_neg hcut]
        have e1 : n * 10 % 2 ^ 64 = n * 10 := Nat.mod_eq_of_lt (by omega)
        rw [e1]
        by_cases hov : n * 10 + (c - 48) < 2 ^ 64
        · have e2 : (n * 10 + (c - 48)) % 2 ^ 64 = n * 10 + (c - 48) := Nat.mod_eq_of_lt hov
          rw [e2, if_neg (by omega)]
          rcases ih (n * 10 + (c - 48)) hov with ⟨⟨h1, h2⟩, h3⟩ | ⟨h1, h2⟩
          · left
            refine ⟨⟨?_, h2⟩, h3⟩
            intro x hx
            rcases List.mem_cons.1 hx with rfl | hx
            · exact hd
            · exact h1 x hx
          · right
            refine ⟨?_, h2⟩
            rintro ⟨g1, g2⟩
            exact h1 ⟨fun x hx => g1 x (by simp [hx]), g2⟩
        · have e2 : (n * 10 + (c - 48)) % 2 ^ 64 < n * 10 := by omega
          rw [if_pos (Or.inl e2)]
          right
          refine ⟨?_, Or.inr rfl⟩
          rintro ⟨-, hlt⟩
          have := foldl_digits_ge cs (n * 10 + (c - 48))
          omega
    · rw [if_neg hd]
      right
      refine ⟨?_, Or.inl rfl⟩
      rintro ⟨g1, -⟩
      exact hd (g1 c (by simp))

theorem ParseUint_spec (ds : List Nat) :
    ((ds ≠ [] ∧ (∀ c ∈ ds, 48 ≤ c ∧ c ≤ 57) ∧ decimalValue ds < 2 ^ 64) ∧
        ParseUint ds = (decimalValue ds, none)) ∨
      (¬ (ds ≠ [] ∧ (∀ c ∈ ds, 48 ≤ c ∧ c ≤ 57) ∧ decimalValue ds < 2 ^ 64) ∧
        ((ParseUint ds).2 = some NumError.ErrSyntax ∨
          ParseUint ds = (2 ^ 64 - 1, some NumError.ErrRange))) := by
  cases ds with
  | nil => exact Or.inr ⟨by simp, Or.inl rfl⟩
  | cons c cs =>
    have e : ParseUint (c :: cs) = parseUintLoop (c :: cs) 0 := rfl
    rw [e]
    unfold decimalValue
    rcases parseUintLoop_spec (c :: cs) 0 (by norm_num) with ⟨⟨h1, h2⟩, h3⟩ | ⟨h1, h2⟩
    · exact Or.inl ⟨⟨by simp, h1, h2⟩, h3⟩
    · exact Or.inr ⟨fun h => h1 ⟨h.2.1, h.2.2⟩, h2⟩

theorem isDecimalInt64_plus (rest : List Nat) :
    IsDecimalInt64 (43 :: rest) ↔
      rest ≠ [] ∧ (∀ c ∈ rest, 48 ≤ c ∧ c ≤ 57) ∧ decimalValue rest ≤ 2 ^ 63 - 1 := by
  constructor
  · rintro ⟨ds, h1, h2, h3 | h3 | h3⟩
    · obtain ⟨e, -⟩ := h3
      have := h2 43 (by rw [← e]; simp)
      omega
    · obtain ⟨e, hv⟩ := h3
      have e2 : rest = ds := (List.cons.inj e).2
      subst e2
      exact ⟨h1, h2, hv⟩
    · obtain ⟨e, -⟩ := h3
      have := (List.cons.inj e).1
      omega
  · rintro ⟨h1, h2, h3⟩
    exact ⟨rest, h1, h2, Or.inr (Or.inl ⟨rfl, h3⟩)⟩

theorem isDecimalInt64_minus (rest : List Nat) :
    IsDecimalInt64 (45 :: rest) ↔
      rest ≠ [] ∧ (∀ c ∈ rest, 48 ≤ c ∧ c ≤ 57) ∧ decimalValue rest ≤ 2 ^ 63 := by
  constructor
  · rintro ⟨ds, h1, h2, h3 | h3 | h3⟩
    · obtain ⟨e, -⟩ := h3
      have := h2 45 (by rw [← e]; simp)
      omega
    · obtain ⟨e, -⟩ := h3
      have := (List.cons.inj e).1
      omega
    · obtain ⟨e, hv⟩ := h3
      have e2 : rest = ds := (List.cons.inj e).2
      subst e2
      exact ⟨h1, h2, hv⟩
  · rintro ⟨h1, h2, h3⟩
    exact ⟨rest, h1, h2, Or.inr (Or.inr ⟨rfl, h3⟩)⟩

theorem isDecimalInt64_unsigned (c : Nat) (rest : List Nat) (h43 : c ≠ 43) (h45 : c ≠ 45) :
    IsDecimalInt64 (c :: rest) ↔
      (∀ x ∈ c :: rest, 48 ≤ x ∧ x ≤ 57) ∧ decimalValue (c :: rest) ≤ 2 ^ 63 - 1 := by
  constructor
  · rintro ⟨ds, h1, h2, h3 | h3 | h3⟩
    · obtain ⟨e, hv⟩ := h3
      subst e
      exact ⟨h2, hv⟩
    · exact absurd (List.cons.inj h3.1).1 h43
    · exact absurd (List.cons.inj h3.1).1 h45
  · rintro ⟨h2, h3⟩
    exact ⟨c :: rest, by simp, h2, Or.inl ⟨rfl, h3⟩⟩

theorem not_isDecimalInt64_nil : ¬ IsDecimalInt64 [] := by
  rintro ⟨ds, h1, -, h3 | h3 | h3⟩
  · exact h1 h3.1.symm
  · exact absurd h3.1 (by simp)
  · exact absurd h3.1 (by simp)

/-- `ParseInt` returns no error exactly on the valid signed 64-bit decimal
texts, and then it returns the integer denoted. -/
theorem ParseInt_spec (s : List Nat) :
    (IsDecimalInt64 s ∧ ParseInt s = (decimalInt s, none)) ∨
      (¬ IsDecimalInt64 s ∧ (ParseInt s).2 ≠ none) := by
  cases s with
  | nil => exact Or.inr ⟨not_isDecimalInt64_nil, by simp [ParseInt]⟩
  | cons c rest =>
    by_cases h45 : c = 45
    · subst h45
      have e : ParseInt (45 :: rest) =
          if (ParseUint rest).2 = some NumError.ErrSyntax then (0, (ParseUint rest).2)
          else if (ParseUint rest).1 > 2 ^ 63 then (-(2 ^ 63), some NumError.ErrRange)
          else (wrap64 (-(wrap64 ((ParseUint rest).1 : Int))), none) := by
        simp [ParseInt]
      rw [e, isDecimalInt64_minus]
      rcases ParseUint_spec rest with ⟨⟨h1, h2, h3⟩, h4⟩ | ⟨h1, h4 | h4⟩
      · rw [h4]
        simp only
        rw [if_neg (by simp)]
        by_cases hv : decimalValue rest > 2 ^ 63
        · rw [if_pos hv]
          exact Or.inr ⟨by omega, by simp⟩
        · rw [if_neg hv]
          left
          refine ⟨⟨h1, h2, by omega⟩, ?_⟩
          have : wrap64 (-wrap64 (decimalValue rest : Int)) = decimalInt (45 :: rest) := by
            have hd : decimalInt (45 :: rest) = -(decimalValue rest : Int) := by
              simp [decimalInt]
            rw [hd]
            unfold wrap64
            omega
          rw [this]
      · rw [if_pos h4]
        right
        constructor
        · rintro ⟨g1, g2, g3⟩
          exact h1 ⟨g1, g2, by omega⟩
        · simp [h4]
      · rw [h4]
        simp only
        rw [if_neg (by simp), if_pos (by norm_num)]
        right
        constructor
        · rintro ⟨g1, g2, g3⟩
          exact h1 ⟨g1, g2, by omega⟩
        · simp
    · by_cases h43 : c = 43
      · subst h43
        have e : ParseInt (43 :: rest) =
            if (ParseUint rest).2 = some NumError.ErrSyntax then (0, (ParseUint rest).2)
            else if (ParseUint rest).1 ≥ 2 ^ 63 then (2 ^ 63 - 1, some NumError.ErrRange)
            else (wrap64 ((ParseUint rest).1 : Int), none) := by
          simp [ParseInt]
        rw [e, isDecimalInt64_plus]
        rcases ParseUint_spec rest with ⟨⟨h1, h2, h3⟩, h4⟩ | ⟨h1, h4 | h4⟩
        · rw [h4]
          simp only
          rw [if_neg (by simp)]
          by_cases hv : decimalValue rest ≥ 2 ^ 63
          · rw [if_pos hv]
            exact Or.inr ⟨by omega, by simp⟩
          · rw [if_neg hv]
            left
            refine ⟨⟨h1, h2, by omega⟩, ?_⟩
            have : wrap64 (decimalValue rest : Int) = decimalInt (43 :: rest) := by
              have hd : decimalInt (43 :: rest) = (decimalValue rest : Int) := by
                simp [decimalInt]
              rw [hd]
              unfold wrap64
              omega
            rw [this]
        · rw [if_pos h4]
          right
          constructor
          · rintro ⟨g1, g2, g3⟩
            exact h1 ⟨g1, g2, by omega⟩
          · simp [h4]
        · rw [h4]
          simp only
          rw [if_neg (by simp), if_pos (by norm_num)]
          right
          constructor
          · rintro ⟨g1, g2, g3⟩
            exact h1 ⟨g1, g2, by omega⟩
          · simp
      · have e : ParseInt (c :: rest) =
            if (ParseUint (c :: rest)).2 = some NumError.ErrSyntax then
              (0, (ParseUint (c :: rest)).2)
            else if (ParseUint (c :: rest)).1 ≥ 2 ^ 63 then
              (2 ^ 63 - 1, some NumError.ErrRange)
            else (wrap64 ((ParseUint (c :: rest)).1 : Int), none) := by
          simp [ParseInt, h43, h45]
        rw [e, isDecimalInt64_unsigned c rest h43 h45]
        rcases ParseUint_spec (c :: rest) with ⟨⟨h1, h2, h3⟩, h4⟩ | ⟨h1, h4 | h4⟩
        · rw [h4]
          simp only
          rw [if_neg (by simp)]
          by_cases hv : decimalValue (c :: rest) ≥ 2 ^ 63
          · rw [if_pos hv]
            exact Or.inr ⟨by omega, by simp⟩
          · rw [if_neg hv]
            left
            refine ⟨⟨h2, by omega⟩, ?_⟩
            have : wrap64 (decimalValue (c :: rest) : Int) = decimalInt (c :: rest) := by
              have hd : decimalInt (c :: rest) = (decimalValue (c :: rest) : Int) := by
                simp [decimalInt, h43, h45]
              rw [hd]
              unfold wrap64
              omega
            rw [this]
        · rw [if_pos h4]
          right
          constructor
          · rintro ⟨g2, g3⟩
            exact h1 ⟨by simp, g2, by omega⟩
          · simp [h4]
        · rw [h4]
          simp only
          rw [if_neg (by simp), if_pos (by norm_num)]
          right
          constructor
          · rintro ⟨g2, g3⟩
            exact h1 ⟨by simp, g2, by omega⟩
          · simp

/-! ## Valid base64 -/

theorem isStdBase64_iff_from (s : List Nat) : IsStdBase64 s ↔ IsStdBase64From 0 s := by
  unfold IsStdBase64 IsStdBase64From
  simp only [Nat.zero_add]

theorem decodeMap_ne_iff (c : Nat) : decodeMap c ≠ 255 ↔ c ∈ encodeStd := by
  unfold decodeMap
  by_cases h : c ∈ encodeStd
  · rw [if_pos h]
    have h1 := List.indexOf_lt_length.2 h
    have h2 : encodeStd.length = 64 := by decide
    exact ⟨fun _ => h, fun _ => by omega⟩
  · rw [if_neg h]
    exact ⟨fun h2 => absurd rfl h2, fun h2 => absurd h2 h⟩

theorem pad_not_mem : (61 : Nat) ∉ encodeStd := by decide

theorem lf_not_mem : (10 : Nat) ∉ encodeStd := by decide

theorem cr_not_mem : (13 : Nat) ∉ encodeStd := by decide

theorem dropNewlines_cons_newline {c : Nat} (rest : List Nat) (h : c = 10 ∨ c = 13) :
    dropNewlines (c :: rest) = dropNewlines rest := by
  unfold dropNewlines
  rw [List.filter_cons_of_neg]
  simp only [decide_eq_true_eq]
  omega

theorem dropNewlines_cons_other {c : Nat} (rest : List Nat) (h10 : c ≠ 10) (h13 : c ≠ 13) :
    dropNewlines (c :: rest) = c :: dropNewlines rest := by
  unfold dropNewlines
  rw [List.filter_cons_of_pos]
  simp only [decide_eq_true_eq]
  exact ⟨h10, h13⟩

theorem skipNewlines_spec (l : List Nat) :
    dropNewlines (skipNewlines l) = dropNewlines l ∧
      (skipNewlines l = [] ↔ dropNewlines l = []) ∧
      ∀ c r, skipNewlines l = c :: r →
        c ≠ 10 ∧ c ≠ 13 ∧ dropNewlines l = c :: dropNewlines r := by
  induction l with
  | nil => exact ⟨rfl, by simp [skipNewlines, dropNewlines], by simp [skipNewlines]⟩
  | cons x rest ih =>
    unfold skipNewlines
    by_cases hx : x = 10 ∨ x = 13
    · rw [if_pos hx, dropNewlines_cons_newline rest hx]
      exact ih
    · rw [if_neg hx]
      have h10 : x ≠ 10 := fun h => hx (Or.inl h)
      have h13 : x ≠ 13 := fun h => hx (Or.inr h)
      refine ⟨rfl, ?_, ?_⟩
      · rw [dropNewlines_cons_other rest h10 h13]
        simp
      · intro c r e
        obtain ⟨e1, e2⟩ := List.cons.inj e
        subst e1 e2
        exact ⟨h10, h13, dropNewlines_cons_other _ h10 h13⟩

theorem from_nil (j : Nat) : IsStdBase64From j [] ↔ j % 4 = 0 := by
  unfold IsStdBase64From
  constructor
  · rintro ⟨pre, pad, e, -, h⟩
    have e2 : pre ++ pad = [] := e.symm
    obtain ⟨rfl, rfl⟩ := List.append_eq_nil.1 e2
    rcases h with ⟨-, h⟩ | ⟨h, -⟩ | ⟨h, -⟩
    · simpa using h
    · exact absurd h (by simp)
    · exact absurd h (by simp)
  · intro h
    exact ⟨[], [], rfl, by simp, Or.inl ⟨rfl, by simpa using h⟩⟩

theorem from_cons_newline (j : Nat) {c : Nat} (rest : List Nat) (h : c = 10 ∨ c = 13) :
    IsStdBase64From j (c :: rest) ↔ IsStdBase64From j rest := by
  unfold IsStdBase64From
  rw [dropNewlines_cons_newline rest h]

theorem from_cons_alphabet (j : Nat) {c : Nat} (rest : List Nat) (h : c ∈ encodeStd) :
    IsStdBase64From j (c :: rest) ↔ IsStdBase64From (j + 1) rest := by
  have h10 : c ≠ 10 := fun e => lf_not_mem (e ▸ h)
  have h13 : c ≠ 13 := fun e => cr_not_mem (e ▸ h)
  have h61 : c ≠ 61 := fun e => pad_not_mem (e ▸ h)
  unfold IsStdBase64From
  rw [dropNewlines_cons_other rest h10 h13]
  constructor
  · rintro ⟨pre, pad, e, hpre, hpad⟩
    cases pre with
    | nil =>
      simp only [List.nil_append] at e
      rcases hpad with ⟨hp, -⟩ | ⟨hp, -⟩ | ⟨hp, -⟩
      · rw [hp] at e; exact absurd e (by simp)
      · rw [hp] at e; exact absurd (List.cons.inj e).1 h61
      · rw [hp] at e; exact absurd (List.cons.inj e).1 h61
    | cons x pre2 =>
      simp only [List.cons_append] at e
      obtain ⟨-, e2⟩ := List.cons.inj e
      refine ⟨pre2, pad, e2, fun y hy => hpre y (by simp [hy]), ?_⟩
      simp only [List.length_cons] at hpad
      rcases hpad with ⟨hp, hl⟩ | ⟨hp, hl⟩ | ⟨hp, hl⟩
      · exact Or.inl ⟨hp, by omega⟩
      · exact Or.inr (Or.inl ⟨hp, by omega⟩)
      · exact Or.inr (Or.inr ⟨hp, by omega⟩)
  · rintro ⟨pre, pad, e, hpre, hpad⟩
    refine ⟨c :: pre, pad, by simp [e], ?_, ?_⟩
    · intro y hy
      rcases List.mem_cons.1 hy with rfl | hy
      · exact h
      · exact hpre y hy
    · simp only [List.length_cons]
      rcases hpad with ⟨hp, hl⟩ | ⟨hp, hl⟩ | ⟨hp, hl⟩
      · exact Or.inl ⟨hp, by omega⟩
      · exact Or.inr (Or.inl ⟨hp, by omega⟩)
      · exact Or.inr (Or.inr ⟨hp, by omega⟩)

theorem from_add_four (j : Nat) (s : List Nat) :
    IsStdBase64From (j + 4) s ↔ IsStdBase64From j s := by
  unfold IsStdBase64From
  constructor
  · rintro ⟨pre, pad, e, hpre, hpad⟩
    refine ⟨pre, pad, e, hpre, ?_⟩
    rcases hpad with ⟨hp, hl⟩ | ⟨hp, hl⟩ | ⟨hp, hl⟩
    · exact Or.inl ⟨hp, by omega⟩
    · exact Or.inr (Or.inl ⟨hp, by omega⟩)
    · exact Or.inr (Or.inr ⟨hp, by omega⟩)
  · rintro ⟨pre, pad, e, hpre, hpad⟩
    refine ⟨pre, pad, e, hpre, ?_⟩
    rcases hpad with ⟨hp, hl⟩ | ⟨hp, hl⟩ | ⟨hp, hl⟩
    · exact Or.inl ⟨hp, by omega⟩
    · exact Or.inr (Or.inl ⟨hp, by omega⟩)
    · exact Or.inr (Or.inr ⟨hp, by omega⟩)

theorem from_cons_other (j : Nat) {c : Nat} (rest : List Nat) (h : c ∉ encodeStd)
    (h10 : c ≠ 10) (h13 : c ≠ 13) :
    IsStdBase64From j (c :: rest) ↔
      c = 61 ∧ ((j % 4 = 2 ∧ dropNewlines rest = [61]) ∨ (j % 4 = 3 ∧ dropNewlines rest = [])) := by
  unfold IsStdBase64From
  rw [dropNewlines_cons_other rest h10 h13]
  constructor
  · rintro ⟨pre, pad, e, hpre, hpad⟩
    cases pre with
    | nil =>
      simp only [List.nil_append] at e
      simp only [List.length_nil, Nat.add_zero] at hpad
      rcases hpad with ⟨hp, -⟩ | ⟨hp, hl⟩ | ⟨hp, hl⟩
      · rw [hp] at e; exact absurd e (by simp)
      · rw [hp] at e
        obtain ⟨e1, e2⟩ := List.cons.inj e
        exact ⟨e1, Or.inl ⟨hl, e2⟩⟩
      · rw [hp] at e
        obtain ⟨e1, e2⟩ := List.cons.inj e
        exact ⟨e1, Or.inr ⟨hl, e2⟩⟩
    | cons x pre2 =>
      simp only [List.cons_append] at e
      obtain ⟨e1, -⟩ := List.cons.inj e
      exact absurd (hpre x (by simp)) (e1 ▸ h)
  · rintro ⟨rfl, ⟨hl, e⟩ | ⟨hl, e⟩⟩
    · exact ⟨[], [61, 61], by simp [e], by simp, Or.inr (Or.inl ⟨rfl, by simpa using hl⟩)⟩
    · exact ⟨[], [61], by simp [e], by simp, Or.inr (Or.inr ⟨rfl, by simpa using hl⟩)⟩

/-- The decoder returns no `CorruptInputError` exactly on the texts that
complete a standard base64 text. -/
theorem decodeLoop_accepts :
    ∀ (s : List Nat) (j : Nat) (dbuf : List Nat), j ≤ 3 →
      (decodeLoop s j dbuf ≠ none ↔ IsStdBase64From j s) := by
  intro s
  induction s with
  | nil =>
    intro j dbuf hj
    rw [decodeLoop, from_nil]
    by_cases h0 : j = 0
    · rw [if_pos h0]
      exact ⟨fun _ => by omega, fun _ => by simp⟩
    · rw [if_neg h0]
      exact ⟨fun h => absurd rfl h, fun h => by omega⟩
  | cons c rest ih =>
    intro j dbuf hj
    rw [decodeLoop]
    by_cases hm : c ∈ encodeStd
    · rw [if_pos ((decodeMap_ne_iff c).2 hm), from_cons_alphabet j rest hm]
      by_cases h3 : j = 3
      · rw [if_pos h3]
        subst h3
        rw [from_add_four 0 rest, ← ih 0 [] (by omega)]
        cases decodeLoop rest 0 [] <;> simp
      · rw [if_neg h3]
        exact ih (j + 1) _ (by omega)
    · rw [if_neg (fun h => hm ((decodeMap_ne_iff c).1 h))]
      by_cases hnl : c = 10 ∨ c = 13
      · rw [if_pos hnl, from_cons_newline j rest hnl]
        exact ih j dbuf hj
      · rw [if_neg hnl]
        have h10 : c ≠ 10 := fun h => hnl (Or.inl h)
        have h13 : c ≠ 13 := fun h => hnl (Or.inr h)
        rw [from_cons_other j rest hm h10 h13]
        by_cases h61 : c ≠ 61
        · rw [if_pos h61]
          exact ⟨fun h => absurd rfl h, fun h => absurd h.1 h61⟩
        · rw [if_neg h61]
          have hc : c = 61 := by omega
          by_cases h01 : j = 0 ∨ j = 1
          · rw [if_pos h01]
            refine ⟨fun h => absurd rfl h, ?_⟩
            rintro ⟨-, ⟨hl, -⟩ | ⟨hl, -⟩⟩ <;> omega
          · rw [if_neg h01]
            obtain ⟨-, s2, s3⟩ := skipNewlines_spec rest
            by_cases h2 : j = 2
            · rw [if_pos h2]
              cases hsk : skipNewlines rest with
              | nil =>
                simp only
                have hd := s2.1 hsk
                refine ⟨fun h => absurd rfl h, ?_⟩
                rintro ⟨-, ⟨-, e⟩ | ⟨hl, -⟩⟩
                · rw [hd] at e; exact absurd e (by simp)
                · omega
              | cons c2 rest2 =>
                simp only
                obtain ⟨-, -, hd⟩ := s3 c2 rest2 hsk
                obtain ⟨-, t2, -⟩ := skipNewlines_spec rest2
                by_cases hc2 : c2 ≠ 61
                · rw [if_pos hc2]
                  refine ⟨fun h => absurd rfl h, ?_⟩
                  rintro ⟨-, ⟨-, e⟩ | ⟨hl, -⟩⟩
                  · rw [hd] at e
                    exact absurd (List.cons.inj e).1 hc2
                  · omega
                · rw [if_neg hc2]
                  have hc2e : c2 = 61 := by omega
                  by_cases hne : skipNewlines rest2 ≠ []
                  · rw [if_pos hne]
                    refine ⟨fun h => absurd rfl h, ?_⟩
                    rintro ⟨-, ⟨-, e⟩ | ⟨hl, -⟩⟩
                    · rw [hd] at e
                      exact (hne (t2.2 (List.cons.inj e).2)).elim
                    · omega
                  · rw [if_neg hne]
                    have hnil : skipNewlines rest2 = [] := by
                      by_contra h
                      exact hne h
                    refine ⟨fun _ => ⟨hc, Or.inl ⟨by omega, ?_⟩⟩, fun _ => by simp⟩
                    rw [hd, hc2e, t2.1 hnil]
            · rw [if_neg h2]
              have hj3 : j = 3 := by omega
              by_cases hne : skipNewlines rest ≠ []
              · rw [if_pos hne]
                refine ⟨fun h => absurd rfl h, ?_⟩
                rintro ⟨-, ⟨hl, -⟩ | ⟨-, e⟩⟩
                · omega
                · exact (hne (s2.2 e)).elim
              · rw [if_neg hne]
                have hnil : skipNewlines rest = [] := by
                  by_contra h
                  exact hne h
                exact ⟨fun _ => ⟨hc, Or.inr ⟨by omega, s2.1 hnil⟩⟩, fun _ => by simp⟩

theorem DecodeString_accepts (s : List Nat) : DecodeString s ≠ none ↔ IsStdBase64 s := by
  rw [isStdBase64_iff_from]
  exact decodeLoop_accepts s 0 [] (by omega)

/-- C12 (parse errors): `ParseString(s)` and `ParseBytes(s)` return an error
exactly when `s` is not a valid signed 64-bit decimal integer (optional sign, at
least one digit, nothing else, value in `[-2^63, 2^63 - 1]`), and on a valid
text they return the integer denoted; so the empty text, a text with a
character that is not a digit and a value outside the range give an error.
`ParseBase64(s)` returns an error exactly when `s` is not valid standard base64
(line feeds and carriage returns are ignored, as the library does) or the bytes
decoded from it are not a valid signed 64-bit decimal integer; when `s` is not
valid base64 the identifier returned is `-1`. -/
theorem C12_parse_errors (s : List Nat) :
    ((ParseString s).2 ≠ none ↔ ¬ IsDecimalInt64 s) ∧
      ((ParseBytes s).2 ≠ none ↔ ¬ IsDecimalInt64 s) ∧
      (IsDecimalInt64 s → ParseString s = (decimalInt s, none)) ∧
      ((ParseBase64 s).2 ≠ none ↔
        (¬ IsStdBase64 s ∨ ∃ b, DecodeString s = some b ∧ ¬ IsDecimalInt64 b)) ∧
      (¬ IsStdBase64 s → ParseBase64 s = (-1, some Base64Error.CorruptInput)) ∧
      (ParseString []).2 ≠ none ∧
      (ParseString ("12a".toList.map Char.toNat)).2 ≠ none ∧
      (ParseString ("9223372036854775808".toList.map Char.toNat)).2 ≠ none ∧
      (ParseString ("-9223372036854775809".toList.map Char.toNat)).2 ≠ none ∧
      ParseString ("-9223372036854775808".toList.map Char.toNat) =
        (-9223372036854775808, none) := by
  have hp : ∀ t : List Nat, ((ParseInt t).2 ≠ none ↔ ¬ IsDecimalInt64 t) := by
    intro t
    rcases ParseInt_spec t with ⟨h1, h2⟩ | ⟨h1, h2⟩
    · rw [h2]
      exact ⟨fun h => absurd rfl h, fun h => absurd h1 h⟩
    · exact ⟨fun _ => h1, fun _ => h2⟩
  refine ⟨hp s, hp s, ?_, ?_, ?_, by decide, by decide, by decide, by decide, by decide⟩
  · intro hv
    rcases ParseInt_spec s with ⟨-, h2⟩ | ⟨h1, -⟩
    · exact h2
    · exact absurd hv h1
  · unfold ParseBase64
    cases hd : DecodeString s with
    | none =>
      simp only
      have hns : ¬ IsStdBase64 s := fun h => (DecodeString_accepts s).2 h hd
      exact ⟨fun _ => Or.inl hns, fun _ => by simp⟩
    | some b =>
      simp only
      have hs : IsStdBase64 s := (DecodeString_accepts s).1 (by rw [hd]; simp)
      have hb := hp b
      constructor
      · intro h
        right
        refine ⟨b, rfl, hb.1 ?_⟩
        intro hn
        apply h
        have : (ParseBytes b).2 = none := hn
        rw [this]
        rfl
      · rintro (h | ⟨b2, e, h⟩)
        · exact absurd hs h
        · have e2 : b = b2 := Option.some.inj e
          subst e2
          have h3 := hb.2 h
          intro hn
          apply h3
          cases hx : (ParseInt b).2 with
          | none => rfl
          | some x =>
            have : (ParseBytes b).2 = some x := hx
            rw [this] at hn
            exact absurd hn (by simp)
  · intro hns
    unfold ParseBase64
    cases hd : DecodeString s with
    | none => rfl
    | some b => exact absurd ((DecodeString_accepts s).1 (by rw [hd]; simp)) hns

/-! ## Sequence rollover -/

theorem nat_zero_ldiff (m : Nat) : Nat.ldiff 0 m = 0 := by
  apply Nat.eq_of_testBit_eq
  intro i
  rw [Nat.testBit_ldiff]
  simp

theorem int_land_zero (x : Int) : Int.land x 0 = 0 := by
  cases x with
  | ofNat m =>
    show ((m &&& 0 : Nat) : Int) = 0
    simp
  | negSucc m =>
    show ((Nat.ldiff 0 m : Nat) : Int) = 0
    rw [nat_zero_ldiff]
    rfl

theorem emod_two_mul (x p : Int) (hp : 0 < p) :
    x % (2 * p) = 2 * (x / 2 % p) + x % 2 := by
  have h1 := Int.emod_add_ediv (x / 2) p
  have h2 := Int.emod_nonneg (x / 2) (ne_of_gt hp)
  have h3 := Int.emod_lt_of_pos (x / 2) hp
  have e : x = (2 * (x / 2 % p) + x % 2) + (x / 2 / p) * (2 * p) := by
    have : (x / 2 / p) * (2 * p) = 2 * (p * (x / 2 / p)) := by ring
    rw [this]
    generalize p * (x / 2 / p) = pd at h1
    omega
  have e2 : x % (2 * p) = (2 * (x / 2 % p) + x % 2) % (2 * p) := by
    conv_lhs => rw [e]
    exact Int.add_mul_emod_self
  rw [e2]
  apply Int.emod_eq_of_lt
  · omega
  · omega

theorem land_mask_any (k : Nat) : ∀ x : Int, Int.land x (2 ^ k - 1) = x % 2 ^ k := by
  induction k with
  | zero =>
    intro x
    simp only [pow_zero, sub_self, Int.emod_one]
    exact int_land_zero x
  | succ k ih =>
    intro x
    have hp : (0 : Int) < 2 ^ k := by positivity
    have ex : x = Int.bit (decide (x % 2 = 1)) (x / 2) := by
      rw [Int.bit_val]
      by_cases hb : x % 2 = 1
      · simp only [hb, decide_True, cond_true]
        omega
      · simp only [hb, decide_False, cond_false]
        omega
    have em : (2 : Int) ^ (k + 1) - 1 = Int.bit true (2 ^ k - 1) := by
      rw [Int.bit_val]
      simp only [cond_true]
      ring
    have e2 : (2 : Int) ^ (k + 1) = 2 * 2 ^ k := by ring
    rw [em, e2, emod_two_mul x _ hp]
    conv_lhs => rw [ex]
    rw [Int.land_bit, ih, Int.bit_val]
    by_cases hb : x % 2 = 1
    · simp only [hb, decide_True, Bool.and_true, cond_true]
    · simp only [hb, decide_False, Bool.and_true, cond_false]
      omega

theorem shl64_in_range {r : Int} (h0 : 0 ≤ r) (h1 : r < 2 ^ 41) : shl64 r 22 = r * 2 ^ 22 := by
  unfold shl64
  exact wrap64_of_isInt64 (by unfold IsInt64; omega)

/-- The identifier of a state that starts the millisecond `r`, for any `r`. -/
theorem build_rollover (u : Snowflake) (hc : u.Consts) (r : Int) :
    ({ u with sequence := 0, lastTimestamp := r } : Snowflake).build =
      shl64 r 22 + u.nodeID * 2 ^ 12 := by
  have h := build_eq_add { u with sequence := 0, lastTimestamp := r } hc
    (by show (0 : Int) ≤ 0; omega) (by show (0 : Int) ≤ 4095; omega)
  rw [h]
  simp only [add_zero]

/-- A run of `j` calls that all read the last timestamp, whatever it is, while
the sequence has room: the identifiers are the `j` successors of the last
identifier. -/
theorem runIDs_same_ms_any :
    ∀ (j m : Nat) (s : Snowflake) (clock : List Int) (q : Int), s.Consts →
      0 ≤ s.sequence → q = s.sequence + j → q ≤ 4095 →
      runIDs (j + m) s (List.replicate j s.lastTimestamp ++ clock) =
        ((List.range j).map (fun (i : Nat) => s.build + 1 + (i : Int)) ++
            (runIDs m { s with sequence := q } clock).1,
          (runIDs m { s with sequence := q } clock).2.1,
          (runIDs m { s with sequence := q } clock).2.2) := by
  intro j
  induction j with
  | zero =>
    intro m s clock q _ _ hq _
    have : q = s.sequence := by simpa using hq
    subst this
    simp
  | succ j ih =>
    intro m s clock q hc q0 hq hq1
    have hlt : s.sequence < 4095 := by push_cast at hq; omega
    have hID : s.ID (s.lastTimestamp :: (List.replicate j s.lastTimestamp ++ clock)) = _ :=
      (ID_of_not_behind s _ (lt_irrefl _)).trans
        (produce_same_ms_any s hc.2.2.2.1 q0 _ [] hlt)
    have e1 : j + 1 + m = (j + m) + 1 := by omega
    rw [e1, List.replicate_succ, List.cons_append, runIDs_succ_of_ID hID]
    simp only
    have := ih m { s with sequence := s.sequence + 1 } clock q hc
      (by show 0 ≤ s.sequence + 1; omega) (by push_cast at hq; simp only; omega) hq1
    simp only at this
    rw [this]
    have hb : ({ s with sequence := s.sequence + 1 } : Snowflake).build = s.build + 1 := by
      have h1 := build_eq_add { s with sequence := s.sequence + 1 } hc
        (by show 0 ≤ s.sequence + 1; omega) (by show s.sequence + 1 ≤ 4095; omega)
      rw [h1, build_eq_add s hc q0 (by omega)]
      simp only
      ring
    rw [hb, ← range_map_shift (s.build + 1) j]
    rfl

/-- C6, as stated, fails outside the 41-bit range: in the state with sequence
`4095` and last timestamp `2^41`, a call that reads `2^41` and then `2^41 + 1`
returns an identifier whose timestamp field `id >> 22` is `-2199023255551`, not
the reading `2^41 + 1`. -/
theorem C6_sequence_rollover_counterexample :
    ({ mkSnowflake 1 with sequence := 4095, lastTimestamp := 2 ^ 41 } : Snowflake).Consts ∧
      ({ mkSnowflake 1 with sequence := 4095, lastTimestamp := 2 ^ 41 } : Snowflake).ID
          [2 ^ 41, 2 ^ 41 + 1] =
        some
          { id := -9223372036850577408
            state := { mkSnowflake 1 with sequence := 0, lastTimestamp := 2 ^ 41 + 1 }
            clock := []
            slept := [] } ∧
      (-9223372036850577408 : Int) >>> (22 : Nat) = -2199023255551 ∧
      (-9223372036850577408 : Int) >>> (22 : Nat) ≠ 2 ^ 41 + 1 := by
  have hc : ({ mkSnowflake 1 with sequence := 4095, lastTimestamp := 2 ^ 41 } : Snowflake).Consts := by
    decide
  refine ⟨hc, ?_, by decide, by decide⟩
  have hroll := produce_rollover
    (s := { mkSnowflake 1 with sequence := 4095, lastTimestamp := 2 ^ 41 }) rfl rfl []
    (2 ^ 41 + 1) [] [] (by simp) (by decide)
  have hb := build_rollover { mkSnowflake 1 with sequence := 4095, lastTimestamp := 2 ^ 41 } hc
    (2 ^ 41 + 1)
  have hv : shl64 (2 ^ 41 + 1) 22 + (1 : Int) * 2 ^ 12 = -9223372036850577408 := by decide
  rw [ID_of_not_behind _ _ (lt_irrefl _)]
  exact hroll.trans (by rw [hb]; exact congrArg some (by rw [← hv]; rfl))

/-- C6 (amended): let `u` be a generator state with the constants of
`NewSnowflake`, `T < r` any two clock values and `pre` readings that are all
`≤ T`.
* If `u.sequence = 4095` and `u.lastTimestamp = T`, a call of `ID` whose
  effective reading is `T` (the first reading, or the resample after a
  compensated backward reading `n`) has not returned after reading `pre`, and on
  the readings `T, pre, r, post` it sets the sequence to `0` and the last
  timestamp to `r`, never to `T`, leaves `post` unread and returns the packed
  identifier `(r << 22) + nodeID * 2^12`, whose sequence field is `0`.
* The timestamp field of that identifier is `r` when `0 ≤ r < 2^41`.
* If `u.lastTimestamp < T`, then `4097` calls that read `T` return the `4096`
  identifiers `(T << 22) + nodeID * 2^12 + i`, `i = 0, …, 4095`, and then the
  identifier of `r` with sequence `0`; when `0 ≤ T < 2^41` the first `4096` have
  timestamp field `T` and sequence field `i`. -/
theorem C6_sequence_rollover (u : Snowflake) (hc : u.Consts) (T r : Int) (pre post : List Int)
    (hTr : T < r) (hpre : ∀ x ∈ pre, x ≤ T) :
    (u.sequence = 4095 → u.lastTimestamp = T →
      u.ID (T :: pre) = none ∧
        u.ID (T :: (pre ++ r :: post)) =
          some
            { id := shl64 r 22 + u.nodeID * 2 ^ 12
              state := { u with sequence := 0, lastTimestamp := r }
              clock := post
              slept := [] } ∧
        (∀ n, n < T → T - n ≤ 5 →
          u.ID (n :: T :: pre) = none ∧
            u.ID (n :: T :: (pre ++ r :: post)) =
              some
                { id := shl64 r 22 + u.nodeID * 2 ^ 12
                  state := { u with sequence := 0, lastTimestamp := r }
                  clock := post
                  slept := [sleepDuration (T - n)] })) ∧
      Int.land (shl64 r 22 + u.nodeID * 2 ^ 12) 4095 = 0 ∧
      (0 ≤ r → r < 2 ^ 41 →
        shl64 r 22 + u.nodeID * 2 ^ 12 = r * 2 ^ 22 + u.nodeID * 2 ^ 12 ∧
          (shl64 r 22 + u.nodeID * 2 ^ 12) >>> (22 : Nat) = r) ∧
      (u.lastTimestamp < T →
        runIDs 4097 u (List.replicate 4097 T ++ (pre ++ r :: post)) =
          ((List.range 4096).map
                (fun (i : Nat) => shl64 T 22 + u.nodeID * 2 ^ 12 + (i : Int)) ++
              [shl64 r 22 + u.nodeID * 2 ^ 12],
            { u with sequence := 0, lastTimestamp := r }, post)) ∧
      (0 ≤ T → T < 2 ^ 41 → ∀ i : Nat, i < 4096 →
        shl64 T 22 + u.nodeID * 2 ^ 12 + (i : Int) = T * 2 ^ 22 + u.nodeID * 2 ^ 12 + (i : Int) ∧
          (shl64 T 22 + u.nodeID * 2 ^ 12 + (i : Int)) >>> (22 : Nat) = T ∧
          Int.land (shl64 T 22 + u.nodeID * 2 ^ 12 + (i : Int)) 4095 = (i : Int)) := by
  have hc0 := hc
  obtain ⟨-, -, -, c4, -, -, n0, n1⟩ := hc0
  have hb3 := build_rollover u hc r
  have hmask : ∀ x : Int, Int.land x 4095 = x % 4096 := by
    intro x
    have := land_mask_any 12 x
    norm_num at this
    exact this
  refine ⟨?_, ?_, ?_, ?_, ?_⟩
  · intro hq hl
    subst hl
    have roll := produce_rollover c4 hq pre r post
    have wait := produce_rollover_waits c4 hq pre
    refine ⟨?_, ?_, ?_⟩
    · rw [ID_of_not_behind u _ (lt_irrefl _)]
      exact wait [] hpre
    · rw [ID_of_not_behind u _ (lt_irrefl _), roll [] hpre hTr, hb3]
    · intro n hn1 hn2
      have hw : wrap64 (u.lastTimestamp - n) = u.lastTimestamp - n :=
        wrap64_of_isInt64 (by unfold IsInt64; omega)
      refine ⟨?_, ?_⟩
      · rw [ID_near_caught_up u _ hn1 (by rw [hw]; exact hn2) (lt_irrefl _)]
        exact wait _ hpre
      · rw [ID_near_caught_up u _ hn1 (by rw [hw]; exact hn2) (lt_irrefl _),
          roll _ hpre hTr, hb3, hw]
  · rw [hmask]
    have := shl64_low_zero r
    omega
  · intro r0 r1
    rw [shl64_in_range r0 r1]
    refine ⟨rfl, ?_⟩
    rw [Int.shiftRight_eq_div_pow]
    norm_num
    omega
  · intro hlt
    have hb1 := build_rollover u hc T
    have e : List.replicate 4097 T ++ (pre ++ r :: post) =
        T :: (List.replicate 4095 T ++ (T :: (pre ++ r :: post))) := by
      rw [show (4097 : Nat) = 4095 + 1 + 1 from rfl, List.replicate_succ',
        List.replicate_succ]
      simp only [List.cons_append, List.append_assoc, List.singleton_append, List.nil_append]
    have hID1 : u.ID (T :: (List.replicate 4095 T ++ (T :: (pre ++ r :: post)))) = _ :=
      (ID_of_not_behind u _ (by omega)).trans (produce_new_ms u _ [] (by omega))
    rw [e, show (4097 : Nat) = 4096 + 1 from rfl, runIDs_succ_of_ID hID1]
    simp only
    have h2 : runIDs (4095 + 1) { u with sequence := 0, lastTimestamp := T }
        (List.replicate 4095 T ++ (T :: (pre ++ r :: post))) = _ :=
      runIDs_same_ms_any 4095 1 { u with sequence := 0, lastTimestamp := T }
        (T :: (pre ++ r :: post)) 4095 hc (le_refl _) (by simp) (le_refl _)
    rw [show (4096 : Nat) = 4095 + 1 from rfl, h2]
    simp only
    have hID3 : ({ u with sequence := 4095, lastTimestamp := T } : Snowflake).ID
        (T :: (pre ++ r :: post)) = _ :=
      (ID_of_not_behind { u with sequence := 4095, lastTimestamp := T } _ (lt_irrefl _)).trans
        (produce_rollover (s := { u with sequence := 4095, lastTimestamp := T }) c4 rfl
          pre r post [] hpre hTr)
    rw [show (1 : Nat) = 0 + 1 from rfl, runIDs_succ_of_ID hID3]
    simp only [runIDs, hb1, hb3]
    refine Prod.ext ?_ rfl
    have hshift := range_map_shift (shl64 T 22 + u.nodeID * 2 ^ 12) 4095
    simp only
    rw [← hshift, List.cons_append]
  · intro t0 t1 i hi
    rw [shl64_in_range t0 t1]
    have hi2 : (i : Int) < 4096 := by exact_mod_cast hi
    have hi0 : (0 : Int) ≤ (i : Int) := Int.ofNat_nonneg i
    refine ⟨rfl, ?_, ?_⟩
    · rw [Int.shiftRight_eq_div_pow]
      norm_num
      omega
    · rw [hmask]
      omega

theorem C6_sequence_rollover_witness :
    ({ mkSnowflake 1 with sequence := 4095, lastTimestamp := 5 } : Snowflake).Consts ∧
      (5 : Int) < 7 ∧ (∀ x ∈ [5, 4], x ≤ (5 : Int)) ∧
      ({ mkSnowflake 1 with sequence := 4095, lastTimestamp := 5 } : Snowflake).ID
          (5 :: ([5, 4] ++ 7 :: [9])) =
        some
          { id := shl64 7 22 +
              ({ mkSnowflake 1 with sequence := 4095, lastTimestamp := 5 } : Snowflake).nodeID *
                2 ^ 12
            state := { mkSnowflake 1 with sequence := 0, lastTimestamp := 7 }
            clock := [9]
            slept := [] } :=
  ⟨by decide, by decide, by decide,
    ((C6_sequence_rollover { mkSnowflake 1 with sequence := 4095, lastTimestamp := 5 }
      (by decide) 5 7 [5, 4] [9] (by decide) (by decide)).1 rfl rfl).2.1⟩
